import Mathlib

/-!
A verification development for the `ai-youtube-kids` single-page app:
a creative-brief form (`src/app/page.tsx`, component `Home`) posting to a
generation endpoint (the `POST` handler in the same file) that calls an
external chat-completion provider and defensively parses its reply.

The embedding below translates the TypeScript source into Lean:

* JavaScript numbers are modelled as exact rationals (`ℚ`); IEEE-754
  rounding is abstracted away (none of the verified properties depend on
  it).  A possibly non-finite number (`NaN`, `Infinity`, or a missing
  field) is modelled as `Option ℚ` with `none` for the non-finite case,
  matching the source's only numeric guard, `Number.isFinite`.
  `runtimeSeconds` is modelled as `Int` (the spec declares it an integer
  and the client slider only produces integers), which also makes the
  `${runtimeFocus}` string interpolation exact.
* `JSON.parse` is modelled by an executable full-grammar JSON parser
  (`parseJSON` below) following ECMA-404/ECMA-262: optional surrounding
  whitespace, `null` / booleans / numbers (no leading zeros, mandatory
  fraction and exponent digits) / strings (escapes, `\uXXXX`, surrogate
  pairs, unescaped control characters rejected) / arrays / objects
  (duplicate keys overwrite in place, like JS property assignment).
  Numbers are parsed to exact rationals; a JS engine would round to a
  double.  A lone surrogate produced by a `\uXXXX` escape is not a
  Unicode scalar value and cannot inhabit a Lean `Char`; it is mapped to
  U+FFFD.  No verified property depends on either boundary.
* `String.prototype.trim` is `jsTrim` (the ECMA WhiteSpace and
  LineTerminator code points), and the global regex replacement
  `raw.replace(/```json|```/g, "")` is `stripFences` (leftmost match,
  alternation preferring the longer literal).
* The stateless `POST` handler becomes a pure function of the
  environment, the request payload, and the provider's reply; it returns
  the HTTP response together with the list of outbound provider requests
  it issued, so "zero provider calls" is a statement about that list.
-/

namespace AYK

/-! ## JSON whitespace, JS whitespace, trim, and fence stripping -/

/-- The JSON insignificant whitespace characters (ECMA-404): space, tab,
line feed, carriage return. -/
def isJsonWs (c : Char) : Bool := c == ' ' || c == '\t' || c == '\n' || c == '\r'

/-- Drop leading JSON whitespace. -/
def skipWs (l : List Char) : List Char := l.dropWhile isJsonWs

/-- The code points removed by `String.prototype.trim` (ECMA-262
WhiteSpace plus LineTerminator): TAB, LF, VT, FF, CR, SP, NBSP, OGHAM
SPACE MARK, the Zs block U+2000..U+200A, LS, PS, NNBSP, MMSP,
IDEOGRAPHIC SPACE and ZWNBSP. -/
def isJsWs (c : Char) : Bool :=
  c.toNat == 9 || c.toNat == 10 || c.toNat == 11 || c.toNat == 12 ||
  c.toNat == 13 || c.toNat == 32 || c.toNat == 160 || c.toNat == 5760 ||
  (8192 ≤ c.toNat && c.toNat ≤ 8202) || c.toNat == 8232 ||
  c.toNat == 8233 || c.toNat == 8239 || c.toNat == 8287 ||
  c.toNat == 12288 || c.toNat == 65279

/-- Drop the maximal `isJsWs` prefix. -/
def jsTrimLeft (l : List Char) : List Char := l.dropWhile isJsWs

/-- `String.prototype.trim` on a character list: drop the maximal JS
whitespace prefix and suffix. -/
def jsTrim (l : List Char) : List Char :=
  ((jsTrimLeft l).reverse.dropWhile isJsWs).reverse

/-- `raw.trim()` at the `String` interface. -/
def jsTrimStr (s : String) : String := (jsTrim s.data).asString

/-- One step of the global replacement `raw.replace(/```json|```/g, "")`:
scan left to right; at each position try the literal alternative
`\x60\x60\x60json` first, then `\x60\x60\x60`, deleting the match;
otherwise keep the character. -/
def stripFences : List Char → List Char
  | '`' :: '`' :: '`' :: 'j' :: 's' :: 'o' :: 'n' :: t => stripFences t
  | '`' :: '`' :: '`' :: t => stripFences t
  | c :: t => c :: stripFences t
  | [] => []

/-- The fence replacement at the `String` interface. -/
def stripFencesStr (s : String) : String := (stripFences s.data).asString

/-- Does the list start with three consecutive backticks (the common
prefix of both regex alternatives)? -/
def startsFence : List Char → Bool
  | c1 :: c2 :: c3 :: _ => c1 == '`' && c2 == '`' && c3 == '`'
  | _ => false

/-- Does the list contain the substring of three consecutive backticks
(which every occurrence of either regex alternative starts with)? -/
def hasFence : List Char → Bool
  | [] => false
  | c :: t => startsFence (c :: t) || hasFence t

/-! ## The JSON value model and the `JSON.parse` embedding -/

/-- A parsed JSON value.  Object members are kept in insertion order;
a duplicate key overwrites the earlier member in place (`setField`),
which is what evaluating a JS object literal does. -/
inductive Json where
  | null
  | bool (b : Bool)
  | num (q : ℚ)
  | str (s : String)
  | arr (elems : List Json)
  | obj (fields : List (String × Json))

/-- Hex digit value, case insensitive. -/
def hexVal (c : Char) : Option Nat :=
  if '0' ≤ c && c ≤ '9' then some (c.toNat - 48)
  else if 'a' ≤ c && c ≤ 'f' then some (c.toNat - 87)
  else if 'A' ≤ c && c ≤ 'F' then some (c.toNat - 55)
  else none

/-- The single-character JSON escapes. -/
def escChar (c : Char) : Option Char :=
  if c = '"' then some '"'
  else if c = '\\' then some '\\'
  else if c = '/' then some '/'
  else if c = 'b' then some (Char.ofNat 8)
  else if c = 'f' then some (Char.ofNat 12)
  else if c = 'n' then some '\n'
  else if c = 'r' then some '\r'
  else if c = 't' then some '\t'
  else none

def isHighSurr (n : Nat) : Bool := 55296 ≤ n && n ≤ 56319

def isLowSurr (n : Nat) : Bool := 56320 ≤ n && n ≤ 57343

/-- Combine a UTF-16 surrogate pair into the astral code point. -/
def combineSurr (hi lo : Nat) : Char :=
  Char.ofNat (65536 + (hi - 55296) * 1024 + (lo - 56320))

/-- String body after the opening quote, as UTF-16 code units: literal
characters (control characters below U+0020 are rejected, as in JSON),
single-character escapes, and `\uXXXX` escapes.  Returns the units and
the input after the closing quote. -/
def parseStringCU : List Char → Option (List Nat × List Char)
  | [] => none
  | '"' :: t => some ([], t)
  | '\\' :: 'u' :: a :: b :: c :: d :: t =>
    match hexVal a, hexVal b, hexVal c, hexVal d with
    | some va, some vb, some vc, some vd =>
      (parseStringCU t).map (fun p => ((((va * 16 + vb) * 16 + vc) * 16 + vd) :: p.1, p.2))
    | _, _, _, _ => none
  | '\\' :: e :: t =>
    match escChar e with
    | some c => (parseStringCU t).map (fun p => (c.toNat :: p.1, p.2))
    | none => none
  | c :: t =>
    if c.toNat < 32 then none
    else (parseStringCU t).map (fun p => (c.toNat :: p.1, p.2))

/-- A single code unit as a character; a lone surrogate is not a Unicode
scalar value and is mapped to U+FFFD (embedding boundary, see the file
header). -/
def cuFirst (n : Nat) : Char :=
  if isHighSurr n || isLowSurr n then Char.ofNat 65533 else Char.ofNat n

/-- Combine adjacent surrogate pairs among the code units. -/
def cuToChars : List Nat → List Char
  | [] => []
  | [n] => [cuFirst n]
  | n :: m :: t =>
    if isHighSurr n && isLowSurr m then combineSurr n m :: cuToChars t
    else cuFirst n :: cuToChars (m :: t)

/-- String body after the opening quote, as characters. -/
def parseStringChars (l : List Char) : Option (List Char × List Char) :=
  (parseStringCU l).map (fun p => (cuToChars p.1, p.2))

/-- Characters that can extend a number token. -/
def isNumChar (c : Char) : Bool :=
  c.isDigit || c == '-' || c == '+' || c == '.' || c == 'e' || c == 'E'

/-- Characters that can start a JSON number. -/
def isNumStart (c : Char) : Bool := c == '-' || c.isDigit

def digitsToNat (ds : List Char) : Nat :=
  ds.foldl (fun n c => 10 * n + (c.toNat - 48)) 0

/-- Exponent digits: a non-empty run of digits ending the token. -/
def expDigits (m : ℚ) (neg : Bool) (l : List Char) : Option ℚ :=
  if l ≠ [] ∧ l.all Char.isDigit then
    some (if neg then m / (10 : ℚ) ^ digitsToNat l else m * (10 : ℚ) ^ digitsToNat l)
  else none

/-- Optional exponent part; anything else left in the token is a syntax
error. -/
def validateExp (m : ℚ) (l : List Char) : Option ℚ :=
  match l with
  | [] => some m
  | c :: t =>
    if c = 'e' ∨ c = 'E' then
      match t with
      | '+' :: t2 => expDigits m false t2
      | '-' :: t2 => expDigits m true t2
      | t2 => expDigits m false t2
    else none

/-- Optional fraction part: a dot must be followed by at least one
digit. -/
def validateFrac (ip : Nat) (l : List Char) : Option ℚ :=
  match l with
  | '.' :: t =>
    if (t.takeWhile Char.isDigit).isEmpty then none
    else
      validateExp
        ((ip : ℚ) + (digitsToNat (t.takeWhile Char.isDigit) : ℚ) /
          (10 : ℚ) ^ (t.takeWhile Char.isDigit).length)
        (t.dropWhile Char.isDigit)
  | t => validateExp (ip : ℚ) t

/-- Unsigned number: `0` exactly, or a run led by a nonzero digit (JSON
rejects leading zeros: after a leading `0` only `.`, `e`/`E`, or the end
of the token may follow, which `validateFrac` enforces). -/
def validatePos : List Char → Option ℚ
  | [] => none
  | '0' :: t => validateFrac 0 t
  | c :: t =>
    if c.isDigit then
      validateFrac (digitsToNat (c :: t.takeWhile Char.isDigit)) (t.dropWhile Char.isDigit)
    else none

/-- A complete number token: optional sign, then `validatePos`. -/
def validateNum (l : List Char) : Option ℚ :=
  match l with
  | '-' :: t => (validatePos t).map Neg.neg
  | t => validatePos t

/-- Number parsing by maximal munch over `isNumChar` followed by grammar
validation of the whole token.  This is extensionally the ECMA behaviour:
a valid JSON number token is consumed greedily, and any number-character
immediately following a shorter valid token makes the enclosing document
a syntax error either way. -/
def parseNum (l : List Char) : Option (ℚ × List Char) :=
  match validateNum (l.takeWhile isNumChar) with
  | some q => some (q, l.dropWhile isNumChar)
  | none => none

/-- JS object-literal member insertion: a duplicate key overwrites in
place, otherwise append. -/
def setField : List (String × Json) → String → Json → List (String × Json)
  | [], k, v => [(k, v)]
  | (k0, v0) :: t, k, v => if k0 = k then (k, v) :: t else (k0, v0) :: setField t k v

/-- Parser state: a value is expected, or we are after an element inside
an array / object whose earlier members are `acc`. -/
inductive PMode where
  | val
  | arrTail (acc : List Json)
  | objTail (acc : List (String × Json))

/-- The recursive JSON parser.  Structural recursion on fuel (one unit
per recursive step, each of which consumes at least one character, so
`length + 1` fuel always suffices — proven below as `run_fuel`).
Whitespace is skipped before every value and token as in the ECMA
grammar; the caller checks trailing input. -/
def run : Nat → PMode → List Char → Option (Json × List Char)
  | 0, _, _ => none
  | f + 1, PMode.val, l =>
    match l with
    | [] => none
    | c :: t =>
      if c = 'n' then
        match t with
        | 'u' :: 'l' :: 'l' :: r => some (Json.null, r)
        | _ => none
      else if c = 't' then
        match t with
        | 'r' :: 'u' :: 'e' :: r => some (Json.bool true, r)
        | _ => none
      else if c = 'f' then
        match t with
        | 'a' :: 'l' :: 's' :: 'e' :: r => some (Json.bool false, r)
        | _ => none
      else if c = '"' then
        match parseStringChars t with
        | some (cs, r) => some (Json.str cs.asString, r)
        | none => none
      else if c = '[' then
        match skipWs t with
        | ']' :: r => some (Json.arr [], r)
        | r1 =>
          match run f PMode.val r1 with
          | some (v, r2) => run f (PMode.arrTail [v]) (skipWs r2)
          | none => none
      else if c = '{' then
        match skipWs t with
        | '}' :: r => some (Json.obj [], r)
        | '"' :: r =>
          match parseStringChars r with
          | some (k, r2) =>
            match skipWs r2 with
            | ':' :: r3 =>
              match run f PMode.val (skipWs r3) with
              | some (v, r4) => run f (PMode.objTail [(k.asString, v)]) (skipWs r4)
              | none => none
            | _ => none
          | none => none
        | _ => none
      else if isNumStart c then
        match parseNum (c :: t) with
        | some (q, r) => some (Json.num q, r)
        | none => none
      else none
  | f + 1, PMode.arrTail acc, l =>
    match l with
    | ']' :: r => some (Json.arr acc, r)
    | ',' :: r =>
      match run f PMode.val (skipWs r) with
      | some (v, r2) => run f (PMode.arrTail (acc ++ [v])) (skipWs r2)
      | none => none
    | _ => none
  | f + 1, PMode.objTail acc, l =>
    match l with
    | '}' :: r => some (Json.obj acc, r)
    | ',' :: r =>
      match skipWs r with
      | '"' :: r2 =>
        match parseStringChars r2 with
        | some (k, r3) =>
          match skipWs r3 with
          | ':' :: r4 =>
            match run f PMode.val (skipWs r4) with
            | some (v, r5) => run f (PMode.objTail (setField acc k.asString v)) (skipWs r5)
            | none => none
          | _ => none
        | none => none
      | _ => none
    | _ => none

/-- `JSON.parse` on a character list: optional surrounding whitespace
around a single value. -/
def parseJSONL (l : List Char) : Option Json :=
  match run (l.length + 1) PMode.val (skipWs l) with
  | some (v, rest) => if skipWs rest = [] then some v else none
  | none => none

/-- The embedding of `JSON.parse`: `some` the value, or `none` where the
real function throws. -/
def parseJSON (s : String) : Option Json := parseJSONL s.data

/-! ## The generation endpoint (`POST` in `src/app/page.tsx`) -/

/-- The request interface `AgentRequest` of the endpoint.  String fields
as in the source; `runtimeSeconds` as an integer and `creativity` as
`Option ℚ` (`none` = missing or non-finite), see the file header. -/
structure AgentRequest where
  channelName : String
  topic : String
  targetAge : String
  learningOutcome : String
  tone : String
  heroCharacter : String
  runtimeSeconds : Int
  callToAction : String
  cadence : String
  extraNotes : String
  creativity : Option ℚ

/-- The fixed system prompt (the `systemPrompt` template literal). -/
def systemPrompt : String :=
  "You are Kid Shorts Studio, an elite creative director for YouTube Kids shorts.\n\nGuidelines:\n- Content must be COPPA friendly, inclusive, kind, and safe for children.\n- Match the requested tone while staying upbeat, empathetic, and imaginative.\n- Deliver actionable production notes for a 9:16 short from hook to CTA.\n- Include quick educational beats that reinforce positive learning.\n- Provide captions, visuals, sound design suggestions, and editing beats appropriate for high retention.\n- Output MUST be valid JSON that matches the schema below. Never include markdown fences or commentary.\n\nSchema:\n\x7b\n  \"headline\": string,\n  \"hook\": string,\n  \"storyline\": [\n    \x7b\n      \"beat\": string,\n      \"timing\": string,\n      \"narration\": string,\n      \"visuals\": string,\n      \"soundDesign\": string\n    \x7d\n  ],\n  \"script\": string,\n  \"educationalMoments\": string[],\n  \"callToAction\": string,\n  \"safetyChecklist\": string[],\n  \"metadata\": \x7b\n    \"description\": string,\n    \"hashtags\": string[],\n    \"keywords\": string[],\n    \"publishingTip\": string\n  \x7d,\n  \"thumbnailConcepts\": string[],\n  \"repurposingIdeas\": string[]\n\x7d\n\nEnsure narrator lines are fun to perform. Offer fresh thumbnail ideas with clear focal points and expressive characters."

/-- The JS string `a || b`: among strings only `""` is falsy, so this is
`b` exactly when `a` is empty. -/
def jsOrStr (a b : String) : String := if a = "" then b else a

/-- The ten interpolated lines of `buildUserPrompt`, in order, before
`join("\n")`. -/
def userPromptLines (p : AgentRequest) : List String :=
  [ "Channel name: " ++ jsOrStr p.channelName "Not provided",
    "Short concept: " ++ p.topic,
    "Target age group: " ++ p.targetAge,
    "Desired learning outcome: " ++ jsOrStr p.learningOutcome "Create an age-appropriate takeaway.",
    "Tone: " ++ p.tone,
    "Hero or host: " ++ jsOrStr p.heroCharacter "Create an original, friendly character.",
    "Ideal runtime: " ++ toString (max 15 (min 90 p.runtimeSeconds)) ++ " seconds",
    "Publishing cadence: " ++ p.cadence,
    "Call to action requested: " ++ p.callToAction,
    "Extra notes / constraints: " ++ jsOrStr p.extraNotes "Stay joyful, ethical, and child-safe." ]

/-- `buildUserPrompt` from the source: the interpolated lines joined with
newlines. -/
def buildUserPrompt (p : AgentRequest) : String :=
  String.intercalate "\n" (userPromptLines p)

/-- The temperature expression of the handler:
`Math.min(0.95, Math.max(0.2, Number.isFinite(creativity) ? creativity + 0.2 : 0.6))`. -/
def deriveTemperature (creativity : Option ℚ) : ℚ :=
  min 0.95 (max 0.2 (match creativity with | some q => q + 0.2 | none => 0.6))

/-- `sanitizeJSON` from the source: parse directly; on failure strip the
fence markers, trim, and parse once more. -/
def sanitizeJSON (raw : String) : Option Json :=
  match parseJSON raw with
  | some v => some v
  | none => parseJSON (jsTrimStr (stripFencesStr raw))

/-- Server environment: the credential `OPENAI_API_KEY` and the optional
model selector `OPENAI_MODEL` (`none` = variable unset). -/
structure EnvConfig where
  apiKey : Option String
  model : Option String

/-- JS truthiness of `!process.env.OPENAI_API_KEY`: an unset variable or
the empty string are falsy. -/
def jsFalsyKey : Option String → Bool
  | none => true
  | some s => s == ""

/-- The outbound chat-completion request body built by the handler. -/
structure ProviderRequest where
  model : String
  temperature : ℚ
  responseFormat : String
  messages : List (String × String)

/-- The provider's reply, as the handler observes it: HTTP success flag,
the error body text (read when not ok), and `choices[0].message.content`
(`none` models a missing or null field; `some ""` is a present empty
string, which `??` does not replace). -/
structure ProviderReply where
  ok : Bool
  errorText : String
  content : Option String

/-- An HTTP response produced by the handler: status and JSON body. -/
structure HttpResponse where
  status : Nat
  body : Json

/-- `NextResponse.json({ error: msg })`. -/
def errorBody (msg : String) : Json := Json.obj [("error", Json.str msg)]

def missingKeyMessage : String :=
  "Missing OPENAI_API_KEY. Add it to your environment before generating content."

def providerErrorMessage : String :=
  "The model could not generate a short. Please try again."

def formattingErrorMessage : String :=
  "Generation succeeded but the response formatting failed. Try running again."

/-- The canned empty-schema completion substituted by `??` when
`choices[0].message.content` is null or missing. -/
def cannedContent : String :=
  "\x7b\"headline\":\"Creative output unavailable\",\"hook\":\"\",\"storyline\":[],\"script\":\"\",\"educationalMoments\":[],\"callToAction\":\"\",\"safetyChecklist\":[],\"metadata\":\x7b\"description\":\"\",\"hashtags\":[],\"keywords\":[],\"publishingTip\":\"\"\x7d,\"thumbnailConcepts\":[],\"repurposingIdeas\":[]\x7d"

/-- The provider request the handler sends: configured or default model,
derived temperature, JSON response format, and the two messages. -/
def mkProviderRequest (env : EnvConfig) (payload : AgentRequest) : ProviderRequest :=
  { model := env.model.getD "gpt-4o-mini",
    temperature := deriveTemperature payload.creativity,
    responseFormat := "json_object",
    messages := [("system", systemPrompt), ("user", buildUserPrompt payload)] }

/-- The `POST` handler as a pure function: the HTTP response paired with
the list of outbound provider calls (empty or a single request). -/
def POST (env : EnvConfig) (payload : AgentRequest) (reply : ProviderReply) :
    HttpResponse × List ProviderRequest :=
  if jsFalsyKey env.apiKey then
    ({ status := 500, body := errorBody missingKeyMessage }, [])
  else
    if reply.ok = false then
      ({ status := 502, body := errorBody providerErrorMessage }, [mkProviderRequest env payload])
    else
      match sanitizeJSON (reply.content.getD cannedContent) with
      | some v => ({ status := 200, body := v }, [mkProviderRequest env payload])
      | none =>
        ({ status := 500, body := errorBody formattingErrorMessage }, [mkProviderRequest env payload])

/-! ## The client (`Home` in `src/app/page.tsx`) -/

/-- A storyboard scene of the generated plan. -/
structure AgentScene where
  beat : String
  timing : String
  narration : String
  visuals : String
  soundDesign : String

/-- The metadata bundle of the generated plan. -/
structure PlanMetadata where
  description : String
  hashtags : List String
  keywords : List String
  publishingTip : String

/-- The generated plan (`AgentResponse` in the source). -/
structure AgentResponse where
  headline : String
  hook : String
  storyline : List AgentScene
  script : String
  educationalMoments : List String
  callToAction : String
  safetyChecklist : List String
  metadata : PlanMetadata
  thumbnailConcepts : List String
  repurposingIdeas : List String

/-- The client form state (`AgentFormState`).  The tone and cadence
presets are string-literal unions in the source, so they are strings at
runtime and are modelled as strings. -/
structure AgentFormState where
  channelName : String
  topic : String
  targetAge : String
  learningOutcome : String
  tone : String
  heroCharacter : String
  runtimeSeconds : Int
  callToAction : String
  cadence : String
  extraNotes : String
  creativity : ℚ

/-- `defaultForm` from the source. -/
def defaultForm : AgentFormState :=
  { channelName := "",
    topic := "",
    targetAge := "Ages 5-8",
    learningOutcome := "",
    tone := "Playful & Silly",
    heroCharacter := "",
    runtimeSeconds := 45,
    callToAction := "Subscribe for more adventures!",
    cadence := "3 videos / week",
    extraNotes := "",
    creativity := 0.6 }

/-- The page-level React state of `Home`. -/
structure ClientState where
  formState : AgentFormState
  result : Option AgentResponse
  isLoading : Bool
  errorMessage : Option String

/-- `handleReset`: restore the default brief, clear the plan and the
message. -/
def handleReset (st : ClientState) : ClientState :=
  { st with formState := defaultForm, result := none, errorMessage := none }

/-- `scenePreview`: `result?.storyline.slice(0, 3) ?? []`. -/
def scenePreview (result : Option AgentResponse) : List AgentScene :=
  match result with
  | some r => r.storyline.take 3
  | none => []

/-- `formatSeconds`: clamp into `[15, 90]` and render with an `s`
suffix (`toFixed(0)` on an integer is plain decimal). -/
def formatSeconds (seconds : Int) : String :=
  toString (max 15 (min 90 seconds)) ++ "s"

/-! ## Definitions written from the specification's words

These two were modelled from the spec rather than the source and are
compared against the source functions in the theorems: `clamp` is the
spec's `clamp(x, lo, hi)`, and the prompt refinement pair below states
the claimed "substitute fallbacks for empty optional fields, then
interpolate verbatim" structure of `buildUserPrompt`. -/

/-- `clamp lo hi x` in the spec's sense. -/
def clamp (lo hi x : ℚ) : ℚ := if x < lo then lo else if hi < x then hi else x

/-- Verbatim interpolation of every field into the prompt lines, with no
fallback anywhere (the runtime line carries its numeric clamp). -/
def verbatimPromptLines (p : AgentRequest) : List String :=
  [ "Channel name: " ++ p.channelName,
    "Short concept: " ++ p.topic,
    "Target age group: " ++ p.targetAge,
    "Desired learning outcome: " ++ p.learningOutcome,
    "Tone: " ++ p.tone,
    "Hero or host: " ++ p.heroCharacter,
    "Ideal runtime: " ++ toString (max 15 (min 90 p.runtimeSeconds)) ++ " seconds",
    "Publishing cadence: " ++ p.cadence,
    "Call to action requested: " ++ p.callToAction,
    "Extra notes / constraints: " ++ p.extraNotes ]

/-- Fallback substitution on the three optional fields named by the
claim: learning outcome, hero character, extra notes. -/
def substFallbacksClaimed (p : AgentRequest) : AgentRequest :=
  { p with
    learningOutcome := if p.learningOutcome = "" then "Create an age-appropriate takeaway." else p.learningOutcome,
    heroCharacter := if p.heroCharacter = "" then "Create an original, friendly character." else p.heroCharacter,
    extraNotes := if p.extraNotes = "" then "Stay joyful, ethical, and child-safe." else p.extraNotes }

/-- Fallback substitution as the code actually performs it: the three
fields above and also the channel name. -/
def substFallbacksActual (p : AgentRequest) : AgentRequest :=
  { p with
    channelName := if p.channelName = "" then "Not provided" else p.channelName,
    learningOutcome := if p.learningOutcome = "" then "Create an age-appropriate takeaway." else p.learningOutcome,
    heroCharacter := if p.heroCharacter = "" then "Create an original, friendly character." else p.heroCharacter,
    extraNotes := if p.extraNotes = "" then "Stay joyful, ethical, and child-safe." else p.extraNotes }

/-- A completion text that wraps a payload in markdown code-fence
markers, the shape the sanitizer's second pass is written for. -/
def wrapFence (s : String) : String := "```json\n" ++ s ++ "\n```"

/-! ## Concrete sample values used by witnesses and counterexamples -/

/-- A sample brief. -/
def sampleRequest : AgentRequest :=
  { channelName := "WonderKids Explorers",
    topic := "Why do chameleons change colors?",
    targetAge := "Ages 5-8",
    learningOutcome := "",
    tone := "Playful & Silly",
    heroCharacter := "",
    runtimeSeconds := 45,
    callToAction := "Subscribe for more adventures!",
    cadence := "3 videos / week",
    extraNotes := "",
    creativity := some 0.6 }

/-- A sample environment with a usable credential. -/
def sampleEnv : EnvConfig := { apiKey := some "sk-test", model := none }

/-- A sample generated plan with four storyboard scenes. -/
def sampleScene (i : Nat) : AgentScene :=
  { beat := "Beat " ++ toString i,
    timing := "0:0" ++ toString i,
    narration := "Narration " ++ toString i,
    visuals := "Visuals " ++ toString i,
    soundDesign := "Sound " ++ toString i }

def sampleResponse : AgentResponse :=
  { headline := "Chameleon Magic",
    hook := "Can YOU change colors?",
    storyline := [sampleScene 1, sampleScene 2, sampleScene 3, sampleScene 4],
    script := "Full script",
    educationalMoments := ["Camouflage"],
    callToAction := "Subscribe!",
    safetyChecklist := ["Kind language"],
    metadata :=
      { description := "A fun short",
        hashtags := ["#kids"],
        keywords := ["chameleon"],
        publishingTip := "Post at 3pm" },
    thumbnailConcepts := ["Big eyes"],
    repurposingIdeas := ["Instagram reel"] }

/-- A sample client state mid-session. -/
def sampleState : ClientState :=
  { formState :=
      { defaultForm with channelName := "WonderKids", runtimeSeconds := 200, creativity := 1 },
    result := some sampleResponse,
    isLoading := false,
    errorMessage := some "old error" }

/-! ## Whitespace toolkit -/

theorem jsonWs_jsWs {c : Char} (h : isJsonWs c = true) : isJsWs c = true := by
  simp only [isJsonWs, Bool.or_eq_true, beq_iff_eq] at h
  rcases h with ((h | h) | h) | h <;> subst h <;> decide

theorem not_jsonWs_of_not_jsWs {c : Char} (h : isJsWs c = false) : isJsonWs c = false := by
  cases hj : isJsonWs c
  · rfl
  · rw [jsonWs_jsWs hj] at h
    cases h

theorem skipWs_cons_pos {c : Char} {l : List Char} (h : isJsonWs c = true) :
    skipWs (c :: l) = skipWs l := by
  simp [skipWs, List.dropWhile_cons, h]

theorem skipWs_cons_neg {c : Char} {l : List Char} (h : isJsonWs c = false) :
    skipWs (c :: l) = c :: l := by
  simp [skipWs, List.dropWhile_cons, h]

theorem skipWs_decomp (l : List Char) :
    ∃ w, l = w ++ skipWs l ∧ ∀ c ∈ w, isJsonWs c = true :=
  ⟨l.takeWhile isJsonWs, (List.takeWhile_append_dropWhile isJsonWs l).symm,
    fun _ hc => List.mem_takeWhile_imp hc⟩

theorem skipWs_head {l : List Char} {c : Char} (h : (skipWs l).head? = some c) :
    isJsonWs c = false := by
  have h2 := List.head?_dropWhile_not isJsonWs l
  rw [show l.dropWhile isJsonWs = skipWs l from rfl, h] at h2
  simpa using h2

theorem skipWs_head_cons {l : List Char} {c : Char} {t : List Char} (h : skipWs l = c :: t) :
    isJsonWs c = false :=
  skipWs_head (by rw [h]; rfl)

theorem skipWs_append_all {x y : List Char} (h : ∀ c ∈ x, isJsonWs c = true) :
    skipWs (x ++ y) = skipWs y := by
  induction x with
  | nil => rfl
  | cons c t ih =>
    rw [List.cons_append, skipWs_cons_pos (h c (by simp))]
    exact ih fun c hc => h c (by simp [hc])

theorem skipWs_append_ne {x y : List Char} (h : skipWs x ≠ []) :
    skipWs (x ++ y) = skipWs x ++ y := by
  induction x with
  | nil => cases h rfl
  | cons c t ih =>
    cases hc : isJsonWs c
    · rw [List.cons_append, skipWs_cons_neg hc, skipWs_cons_neg hc, List.cons_append]
    · rw [skipWs_cons_pos hc] at h
      rw [List.cons_append, skipWs_cons_pos hc, skipWs_cons_pos hc]
      exact ih h

theorem skipWs_eq_nil {l : List Char} (h : skipWs l = []) : ∀ c ∈ l, isJsonWs c = true :=
  fun c hc => List.dropWhile_eq_nil_iff.mp h c hc

theorem dropWhile_append_of_all {p : Char → Bool} {x y : List Char}
    (h : ∀ c ∈ x, p c = true) : (x ++ y).dropWhile p = y.dropWhile p := by
  induction x with
  | nil => rfl
  | cons c t ih =>
    rw [List.cons_append, List.dropWhile_cons]
    simp only [h c (by simp)]
    exact ih fun c hc => h c (by simp [hc])

theorem skipWs_skipWs (l : List Char) : skipWs (skipWs l) = skipWs l := by
  cases h : skipWs l with
  | nil => rfl
  | cons c t => rw [skipWs_cons_neg (skipWs_head_cons h)]

/-! ## Trim toolkit -/

/-- If `l` is JSON whitespace, then a block whose ends are not even JS
whitespace, then JSON whitespace, then `jsTrim l` is exactly the block. -/
theorem jsTrim_decomp {l wsA pre rest : List Char}
    (hl : l = wsA ++ pre ++ rest)
    (hwsA : ∀ c ∈ wsA, isJsonWs c = true)
    (hrest : ∀ c ∈ rest, isJsonWs c = true)
    (hhead : ∀ c, pre.head? = some c → isJsWs c = false)
    (hlast : ∀ c, pre.getLast? = some c → isJsWs c = false)
    (hpre : pre ≠ []) :
    jsTrim l = pre := by
  obtain ⟨c0, pre', rfl⟩ : ∃ c0 pre', pre = c0 :: pre' := by
    cases pre with
    | nil => cases hpre rfl
    | cons a b => exact ⟨a, b, rfl⟩
  have hleft : jsTrimLeft l = (c0 :: pre') ++ rest := by
    rw [hl, List.append_assoc, jsTrimLeft, dropWhile_append_of_all (fun c hc => jsonWs_jsWs (hwsA c hc))]
    rw [List.cons_append, List.dropWhile_cons]
    simp [hhead c0 rfl]
  rw [jsTrim, hleft]
  rw [List.reverse_append, List.reverse_cons]
  rw [dropWhile_append_of_all (by
    intro c hc
    rw [List.mem_reverse] at hc
    exact jsonWs_jsWs (hrest c hc))]
  cases hrev : (pre'.reverse ++ [c0]) with
  | nil => simp at hrev
  | cons d' rr =>
    have hrev2 : (c0 :: pre').reverse = d' :: rr := by rw [List.reverse_cons]; exact hrev
    have hd' : (c0 :: pre').getLast? = some d' := by
      rw [← List.head?_reverse, hrev2]; rfl
    rw [List.dropWhile_cons]
    simp only [hlast d' hd', Bool.false_eq_true, if_false]
    rw [← hrev2, List.reverse_reverse]

theorem isJsWs_newline : isJsWs '\n' = true := by decide

theorem jsTrim_wrap (x : List Char) : jsTrim ('\n' :: (x ++ ['\n'])) = jsTrim x := by
  unfold jsTrim jsTrimLeft
  rw [List.dropWhile_cons]
  simp only [isJsWs_newline, if_true]
  rw [List.dropWhile_append]
  cases h : (x.dropWhile isJsWs).isEmpty
  · simp only [Bool.false_eq_true, if_false]
    rw [List.reverse_append, List.reverse_cons, List.reverse_nil, List.nil_append,
      List.cons_append, List.nil_append, List.dropWhile_cons]
    simp only [isJsWs_newline, if_true]
  · simp only [if_true]
    rw [List.isEmpty_iff] at h
    rw [h]
    rfl

/-! ## Fence toolkit -/

theorem startsFence_false_iff {l : List Char} :
    startsFence l = false ↔ ∀ t, l ≠ '`' :: '`' :: '`' :: t := by
  rcases l with _ | ⟨c1, _ | ⟨c2, _ | ⟨c3, t⟩⟩⟩
  · simp [startsFence]
  · simp [startsFence]
  · simp [startsFence]
  · simp only [startsFence]
    constructor
    · intro h u heq
      simp only [List.cons.injEq] at heq
      obtain ⟨e1, e2, e3, _⟩ := heq
      subst e1; subst e2; subst e3
      simp at h
    · intro h
      by_contra hb
      simp only [Bool.not_eq_false, Bool.and_eq_true, beq_iff_eq] at hb
      obtain ⟨⟨e1, e2⟩, e3⟩ := hb
      subst e1; subst e2; subst e3
      exact h t rfl

theorem stripFences_cons_safe {c : Char} {t : List Char} (h : startsFence (c :: t) = false) :
    stripFences (c :: t) = c :: stripFences t := by
  rw [stripFences.eq_def]
  split
  · rename_i t' heq
    rw [heq] at h
    simp [startsFence] at h
  · rename_i t' heq
    rw [heq] at h
    simp [startsFence] at h
  · rename_i c' t' hx1 hx2 heq
    cases heq
    rfl
  · rename_i heq
    cases heq

theorem hasFence_false_tail {c : Char} {t : List Char} (h : hasFence (c :: t) = false) :
    startsFence (c :: t) = false ∧ hasFence t = false := by
  rw [show hasFence (c :: t) = (startsFence (c :: t) || hasFence t) from rfl] at h
  simpa using h

theorem stripFences_fencejson (x : List Char) :
    stripFences ('`' :: '`' :: '`' :: 'j' :: 's' :: 'o' :: 'n' :: x) = stripFences x := rfl

theorem stripFences_append_closer {l : List Char} (h : hasFence l = false) :
    stripFences (l ++ ('\n' :: '`' :: '`' :: '`' :: [])) = l ++ ['\n'] := by
  induction l with
  | nil => rfl
  | cons c t ih =>
    obtain ⟨h1, h2⟩ := hasFence_false_tail h
    have hsf : startsFence (c :: (t ++ ('\n' :: '`' :: '`' :: '`' :: []))) = false := by
      rw [startsFence_false_iff]
      intro u heq
      rcases t with _ | ⟨c2, t2⟩
      · simp only [List.nil_append] at heq
        injection heq with e1 heq
        injection heq with e2 heq
        exact absurd e2 (by decide)
      · rcases t2 with _ | ⟨c3, t3⟩
        · simp only [List.cons_append, List.nil_append] at heq
          injection heq with e1 heq
          injection heq with e2 heq
          injection heq with e3 heq
          exact absurd e3 (by decide)
        · simp only [List.cons_append] at heq
          injection heq with e1 heq
          injection heq with e2 heq
          injection heq with e3 heq
          subst e1; subst e2; subst e3
          simp [startsFence] at h1
    rw [List.cons_append, stripFences_cons_safe hsf, ih h2, List.cons_append]


theorem getLast?_some_ne_nil {l : List Char} {x : Char} (h : l.getLast? = some x) :
    l ≠ [] := by
  intro h2
  subst h2
  cases h

theorem getLast?_cons_ne (a : Char) {l : List Char} (h : l ≠ []) :
    (a :: l).getLast? = l.getLast? := by
  cases l with
  | nil => cases h rfl
  | cons b t => exact List.getLast?_cons_cons

theorem escChar_ne_u {e ch : Char} (h : escChar e = some ch) : e ≠ 'u' := by
  intro h2
  subst h2
  simp [escChar] at h

theorem parseStringCU_cons_esc {e ch : Char} (he : escChar e = some ch) (hu : e ≠ 'u')
    (X : List Char) :
    parseStringCU ('\\' :: e :: X) = (parseStringCU X).map (fun p => (ch.toNat :: p.1, p.2)) := by
  rw [parseStringCU.eq_def]
  split
  · rename_i heq
    cases heq
  · rename_i t2 heq
    injection heq with e1 heq2
    exact absurd e1 (by decide)
  · rename_i a2 b2 c2 d2 t2 heq
    injection heq with e1 heq2
    injection heq2 with e2 heq3
    exact absurd e2 hu
  · rename_i e2 t2 heq
    injection heq with e1 heq2
    injection heq2 with e2b heq3
    subst e2b
    subst heq3
    rw [he]
  · rename_i c2 t2 hx3 hx4 heq
    injection heq with e1 heq2
    subst e1
    exact (hx4 e X rfl heq2.symm).elim

theorem parseStringCU_cons_lit {c : Char} (hq : c ≠ '"') (hs : c ≠ '\\')
    (hge : ¬ c.toNat < 32) (X : List Char) :
    parseStringCU (c :: X) = (parseStringCU X).map (fun p => (c.toNat :: p.1, p.2)) := by
  rw [parseStringCU.eq_def]
  split
  · rename_i heq
    cases heq
  · rename_i t2 heq
    injection heq with e1 heq2
    exact absurd e1 hq
  · rename_i a2 b2 c2 d2 t2 heq
    injection heq with e1 heq2
    exact absurd e1 hs
  · rename_i e2 t2 heq
    injection heq with e1 heq2
    exact absurd e1 hs
  · rename_i c2 t2 hx3 hx4 heq
    injection heq with e1 heq2
    subst e1
    subst heq2
    rw [if_neg hge]

theorem parseStringCU_spec (l : List Char) :
    ∀ us rest, parseStringCU l = some (us, rest) →
    ∃ sp, l = sp ++ rest ∧ sp.getLast? = some '"' ∧
      ∀ rest2, parseStringCU (sp ++ rest2) = some (us, rest2) := by
  induction l using parseStringCU.induct with
  | case1 => intro us rest h; cases h
  | case2 t =>
    intro us rest h
    rw [show parseStringCU ('"' :: t) = some ([], t) from rfl] at h
    simp only [Option.some.injEq, Prod.mk.injEq] at h
    obtain ⟨h1, h2⟩ := h
    subst h1; subst h2
    exact ⟨['"'], rfl, rfl, fun rest2 => rfl⟩
  | case3 a b c d t va vb vc vd hd hc hb ha ih =>
    intro us rest h
    rw [parseStringCU.eq_def] at h
    simp only [ha, hb, hc, hd] at h
    rw [Option.map_eq_some'] at h
    obtain ⟨⟨us2, rest2⟩, hp, heq⟩ := h
    simp only [Prod.mk.injEq] at heq
    obtain ⟨h1, h2⟩ := heq
    subst h1; subst h2
    obtain ⟨sp, hsp, hlast, hre⟩ := ih us2 rest2 hp
    have hne := getLast?_some_ne_nil hlast
    refine ⟨'\\' :: 'u' :: a :: b :: c :: d :: sp, by rw [hsp]; rfl, ?_, ?_⟩
    · simp only [List.getLast?_cons_cons]
      rw [getLast?_cons_ne d hne, hlast]
    · intro r2
      rw [show ('\\' :: 'u' :: a :: b :: c :: d :: sp) ++ r2 =
        '\\' :: 'u' :: a :: b :: c :: d :: (sp ++ r2) from rfl]
      rw [parseStringCU.eq_def]
      simp only [ha, hb, hc, hd]
      rw [hre r2]
      rfl
  | case4 a b c d t hx =>
    intro us rest h
    rw [parseStringCU.eq_def] at h
    rcases ha : hexVal a with _ | va <;> rcases hb : hexVal b with _ | vb <;>
      rcases hc : hexVal c with _ | vc <;> rcases hd : hexVal d with _ | vd <;>
      simp only [ha, hb, hc, hd] at h
    all_goals first
      | cases h
      | exact (hx va vb vc vd ha hb hc hd).elim
  | case5 e t hxu ch hesc ih =>
    intro us rest h
    have hu : e ≠ 'u' := escChar_ne_u hesc
    rw [parseStringCU.eq_def] at h
    split at h
    · rename_i heq
      cases heq
    · rename_i t2 heq
      injection heq with e1 heq2
      exact absurd e1 (by decide)
    · rename_i a2 b2 c2 d2 t2 heq
      injection heq with e1 heq2
      injection heq2 with e2 heq3
      exact absurd e2 hu
    · rename_i e2 t2 heq
      injection heq with e1 heq2
      injection heq2 with e2b heq3
      subst e2b
      subst heq3
      rw [hesc] at h
      rw [Option.map_eq_some'] at h
      obtain ⟨⟨us2, rest2⟩, hp, heq⟩ := h
      simp only [Prod.mk.injEq] at heq
      obtain ⟨h1, h2⟩ := heq
      subst h1; subst h2
      obtain ⟨sp, hsp, hlast, hre⟩ := ih us2 rest2 hp
      have hne := getLast?_some_ne_nil hlast
      refine ⟨'\\' :: e :: sp, by rw [hsp]; rfl, ?_, ?_⟩
      · rw [List.getLast?_cons_cons, getLast?_cons_ne e hne, hlast]
      · intro r2
        rw [show ('\\' :: e :: sp) ++ r2 = '\\' :: e :: (sp ++ r2) from rfl,
          parseStringCU_cons_esc hesc hu, hre r2]
        rfl
    · rename_i c2 t2 hx3 hx4 heq
      injection heq with e1 heq2
      subst e1
      exact (hx4 e t rfl heq2.symm).elim
  | case6 e t hxu hesc =>
    intro us rest h
    rw [parseStringCU.eq_def] at h
    split at h
    · rename_i heq
      cases heq
    · rename_i t2 heq
      injection heq with e1 heq2
      exact absurd e1 (by decide)
    · rename_i a2 b2 c2 d2 t2 heq
      injection heq with e1 heq2
      injection heq2 with e2 heq3
      exact (hxu a2 b2 c2 d2 t2 e2 heq3).elim
    · rename_i e2 t2 heq
      injection heq with e1 heq2
      injection heq2 with e2b heq3
      subst e2b
      subst heq3
      rw [hesc] at h
      cases h
    · rename_i c2 t2 hx3 hx4 heq
      injection heq with e1 heq2
      subst e1
      exact (hx4 e t rfl heq2.symm).elim
  | case7 c t hq hu he hlt =>
    intro us rest h
    rw [parseStringCU.eq_def] at h
    split at h
    · rename_i heq
      cases heq
    · rename_i t2 heq
      injection heq with e1 heq2
      exact (hq e1).elim
    · rename_i a2 b2 c2 d2 t2 heq
      injection heq with e1 heq2
      exact (hu a2 b2 c2 d2 t2 e1 heq2).elim
    · rename_i e2 t2 hx3 heq
      injection heq with e1 heq2
      exact (he e2 t2 e1 heq2).elim
    · rename_i c2 t2 hx3 hx4 heq
      injection heq with e1 heq2
      subst e1
      subst heq2
      rw [if_pos hlt] at h
      cases h
  | case8 c t hq hu he hge ih =>
    intro us rest h
    rw [parseStringCU.eq_def] at h
    split at h
    · rename_i heq
      cases heq
    · rename_i t2 heq
      injection heq with e1 heq2
      exact (hq e1).elim
    · rename_i a2 b2 c2 d2 t2 heq
      injection heq with e1 heq2
      exact (hu a2 b2 c2 d2 t2 e1 heq2).elim
    · rename_i e2 t2 hx3 heq
      injection heq with e1 heq2
      exact (he e2 t2 e1 heq2).elim
    · rename_i c2 t2 hx3 hx4 heq
      injection heq with e1 heq2
      subst e1
      subst heq2
      rw [if_neg hge] at h
      rw [Option.map_eq_some'] at h
      obtain ⟨⟨us2, rest2⟩, hp, heq⟩ := h
      simp only [Prod.mk.injEq] at heq
      obtain ⟨h1, h2⟩ := heq
      subst h1; subst h2
      have hq2 : c ≠ '"' := fun e1 => hq e1
      have hs2 : c ≠ '\\' := by
        intro e1
        cases t with
        | nil => cases hp
        | cons x xs => exact he x xs e1 rfl
      obtain ⟨sp, hsp, hlast, hre⟩ := ih us2 rest2 hp
      have hne := getLast?_some_ne_nil hlast
      refine ⟨c :: sp, by rw [hsp]; rfl, ?_, ?_⟩
      · rw [getLast?_cons_ne c hne, hlast]
      · intro r2
        rw [show (c :: sp) ++ r2 = c :: (sp ++ r2) from rfl,
          parseStringCU_cons_lit hq2 hs2 hge, hre r2]
        rfl

theorem digit_toNat_bounds {c : Char} (h : c.isDigit = true) : 48 ≤ c.toNat ∧ c.toNat ≤ 57 := by
  simp [Char.isDigit] at h
  exact h

theorem isJsWs_false_of_digit {c : Char} (h : c.isDigit = true) : isJsWs c = false := by
  obtain ⟨h1, h2⟩ := digit_toNat_bounds h
  cases hw : isJsWs c
  · rfl
  · exfalso
    simp only [isJsWs, Bool.or_eq_true, beq_iff_eq, Bool.and_eq_true, decide_eq_true_eq] at hw
    omega

theorem digits_getLast {l : List Char} (hne : l ≠ []) (hall : l.all Char.isDigit = true) :
    ∃ d, l.getLast? = some d ∧ d.isDigit = true :=
  ⟨l.getLast hne, List.getLast?_eq_getLast l hne, by
    rw [List.all_eq_true] at hall
    exact hall _ (List.getLast_mem hne)⟩

theorem expDigits_some {m : ℚ} {neg : Bool} {l : List Char} {q : ℚ}
    (h : expDigits m neg l = some q) : l ≠ [] ∧ l.all Char.isDigit = true := by
  rw [expDigits] at h
  split at h
  · assumption
  · cases h

theorem validateExp_last {m : ℚ} {l : List Char} {q : ℚ} (h : validateExp m l = some q) :
    l = [] ∨ ∃ d, l.getLast? = some d ∧ d.isDigit = true := by
  rw [validateExp.eq_def] at h
  split at h
  · exact Or.inl rfl
  · rename_i c t
    split at h
    · split at h
      · rename_i t2
        obtain ⟨hne, hall⟩ := expDigits_some h
        obtain ⟨d, hd, hdig⟩ := digits_getLast hne hall
        exact Or.inr ⟨d, by rw [List.getLast?_cons_cons, getLast?_cons_ne _ hne, hd], hdig⟩
      · rename_i t2
        obtain ⟨hne, hall⟩ := expDigits_some h
        obtain ⟨d, hd, hdig⟩ := digits_getLast hne hall
        exact Or.inr ⟨d, by rw [List.getLast?_cons_cons, getLast?_cons_ne _ hne, hd], hdig⟩
      · rename_i t2 hx1 hx2
        obtain ⟨hne, hall⟩ := expDigits_some h
        obtain ⟨d, hd, hdig⟩ := digits_getLast hne hall
        exact Or.inr ⟨d, by rw [getLast?_cons_ne _ hne, hd], hdig⟩
    · cases h

theorem takeWhile_digits_all (t : List Char) :
    (t.takeWhile Char.isDigit).all Char.isDigit = true := by
  rw [List.all_eq_true]
  exact fun c hc => List.mem_takeWhile_imp hc

theorem validateFrac_last {ip : Nat} {l : List Char} {q : ℚ} (h : validateFrac ip l = some q) :
    l = [] ∨ ∃ d, l.getLast? = some d ∧ d.isDigit = true := by
  rw [validateFrac.eq_def] at h
  split at h
  · rename_i t
    split at h
    · cases h
    · rename_i hds
      have hds : t.takeWhile Char.isDigit ≠ [] := by
        intro h2
        rw [h2] at hds
        simp at hds
      rcases validateExp_last h with hnil | ⟨d, hd, hdig⟩
      · obtain ⟨d, hd, hdig⟩ := digits_getLast hds (takeWhile_digits_all t)
        refine Or.inr ⟨d, ?_, hdig⟩
        have ht : t = t.takeWhile Char.isDigit := by
          conv_lhs => rw [← List.takeWhile_append_dropWhile Char.isDigit t]
          rw [hnil, List.append_nil]
        rw [getLast?_cons_ne _ (by rw [ht]; exact hds), ht, hd]
      · refine Or.inr ⟨d, ?_, hdig⟩
        have hdw : t.dropWhile Char.isDigit ≠ [] := getLast?_some_ne_nil hd
        have ht : ('.' :: t).getLast? = t.getLast? :=
          getLast?_cons_ne _ (by intro h2; rw [h2] at hdw; simp at hdw)
        rw [ht, ← List.takeWhile_append_dropWhile Char.isDigit t,
          List.getLast?_append_of_ne_nil _ hdw, hd]
  · exact validateExp_last h

theorem validatePos_last {l : List Char} {q : ℚ} (h : validatePos l = some q) :
    ∃ d, l.getLast? = some d ∧ d.isDigit = true := by
  rw [validatePos.eq_def] at h
  split at h
  · cases h
  · rename_i t
    rcases validateFrac_last h with hnil | ⟨d, hd, hdig⟩
    · subst hnil
      exact ⟨'0', rfl, by decide⟩
    · exact ⟨d, by rw [getLast?_cons_ne _ (getLast?_some_ne_nil hd), hd], hdig⟩
  · rename_i c t hx
    split at h
    · rename_i hcd
      rcases validateFrac_last h with hnil | ⟨d, hd, hdig⟩
      · have ht : t = t.takeWhile Char.isDigit := by
          conv_lhs => rw [← List.takeWhile_append_dropWhile Char.isDigit t]
          rw [hnil, List.append_nil]
        rcases hemp : t.takeWhile Char.isDigit with _ | ⟨d2, t2⟩
        · refine ⟨c, ?_, hcd⟩
          rw [ht, hemp]
          rfl
        · obtain ⟨d, hd, hdig⟩ := digits_getLast (l := t.takeWhile Char.isDigit)
            (by rw [hemp]; simp) (takeWhile_digits_all t)
          refine ⟨d, ?_, hdig⟩
          rw [getLast?_cons_ne _ (by rw [ht, hemp]; simp), ht, hd]
      · have hdw : t.dropWhile Char.isDigit ≠ [] := getLast?_some_ne_nil hd
        refine ⟨d, ?_, hdig⟩
        have ht : (c :: t).getLast? = t.getLast? :=
          getLast?_cons_ne _ (by intro h2; rw [h2] at hdw; simp at hdw)
        rw [ht, ← List.takeWhile_append_dropWhile Char.isDigit t,
          List.getLast?_append_of_ne_nil _ hdw, hd]
    · cases h

theorem validateNum_last {l : List Char} {q : ℚ} (h : validateNum l = some q) :
    ∃ d, l.getLast? = some d ∧ d.isDigit = true := by
  rw [validateNum.eq_def] at h
  split at h
  · rename_i t
    rw [Option.map_eq_some'] at h
    obtain ⟨q2, hq2, _⟩ := h
    obtain ⟨d, hd, hdig⟩ := validatePos_last hq2
    exact ⟨d, by rw [getLast?_cons_ne _ (getLast?_some_ne_nil hd), hd], hdig⟩
  · exact validatePos_last h

theorem takeWhile_all_append {p : Char → Bool} {x y : List Char}
    (hx : ∀ c ∈ x, p c = true) (hy : ∀ c, y.head? = some c → p c = false) :
    (x ++ y).takeWhile p = x ∧ (x ++ y).dropWhile p = y := by
  induction x with
  | nil =>
    cases y with
    | nil => exact ⟨rfl, rfl⟩
    | cons c t =>
      simp only [List.nil_append, List.takeWhile_cons, List.dropWhile_cons, hy c rfl]
      exact ⟨rfl, rfl⟩
  | cons c t ih =>
    have hc := hx c (by simp)
    obtain ⟨iht, ihd⟩ := ih (fun c2 hc2 => hx c2 (by simp [hc2]))
    constructor
    · rw [List.cons_append, List.takeWhile_cons, hc]
      simp only [if_true, iht]
    · rw [List.cons_append, List.dropWhile_cons, hc]
      simp only [if_true, ihd]

theorem parseNum_spec {l : List Char} {q : ℚ} {rest : List Char}
    (h : parseNum l = some (q, rest)) :
    ∃ np, l = np ++ rest ∧ np ≠ [] ∧ (∀ c ∈ np, isNumChar c = true) ∧
      (∃ d, np.getLast? = some d ∧ d.isDigit = true) ∧
      (∀ c, rest.head? = some c → isNumChar c = false) ∧
      ∀ rest2, (∀ c, rest2.head? = some c → isNumChar c = false) →
        parseNum (np ++ rest2) = some (q, rest2) := by
  rw [parseNum] at h
  split at h
  · rename_i q2 hval
    simp only [Option.some.injEq, Prod.mk.injEq] at h
    obtain ⟨h1, h2⟩ := h
    subst h1
    subst h2
    obtain ⟨d, hd, hdig⟩ := validateNum_last hval
    have hne : l.takeWhile isNumChar ≠ [] := getLast?_some_ne_nil hd
    refine ⟨l.takeWhile isNumChar, (List.takeWhile_append_dropWhile isNumChar l).symm, hne,
      fun c hc => List.mem_takeWhile_imp hc, ⟨d, hd, hdig⟩, ?_, ?_⟩
    · intro c hc
      have h2 := List.head?_dropWhile_not isNumChar l
      rw [hc] at h2
      simpa using h2
    · intro rest2 hr2
      obtain ⟨htw, hdw⟩ := takeWhile_all_append (fun c hc => List.mem_takeWhile_imp hc) hr2
      rw [parseNum, htw, hdw, hval]
  · cases h

theorem run_val_inv {f : Nat} {c : Char} {t : List Char} {v : Json} {rest : List Char}
    (h : run (f + 1) PMode.val (c :: t) = some (v, rest)) :
    (c = 'n' ∧ t = 'u' :: 'l' :: 'l' :: rest ∧ v = Json.null) ∨
    (c = 't' ∧ t = 'r' :: 'u' :: 'e' :: rest ∧ v = Json.bool true) ∨
    (c = 'f' ∧ t = 'a' :: 'l' :: 's' :: 'e' :: rest ∧ v = Json.bool false) ∨
    (c = '"' ∧ ∃ cs, parseStringChars t = some (cs, rest) ∧ v = Json.str cs.asString) ∨
    (c = '[' ∧ skipWs t = ']' :: rest ∧ v = Json.arr []) ∨
    (c = '[' ∧ (∀ x, skipWs t ≠ ']' :: x) ∧
      ∃ v1 r2, run f PMode.val (skipWs t) = some (v1, r2) ∧
        run f (PMode.arrTail [v1]) (skipWs r2) = some (v, rest)) ∨
    (c = '{' ∧ skipWs t = '}' :: rest ∧ v = Json.obj []) ∨
    (c = '{' ∧ ∃ r k r2 r3 v1 r4, skipWs t = '"' :: r ∧ parseStringChars r = some (k, r2) ∧
      skipWs r2 = ':' :: r3 ∧ run f PMode.val (skipWs r3) = some (v1, r4) ∧
      run f (PMode.objTail [(k.asString, v1)]) (skipWs r4) = some (v, rest)) ∨
    (isNumStart c = true ∧ ∃ q, parseNum (c :: t) = some (q, rest) ∧ v = Json.num q) := by
  simp only [run] at h
  split at h
  · rename_i hc
    split at h
    · rename_i r
      simp only [Option.some.injEq, Prod.mk.injEq] at h
      obtain ⟨h1, h2⟩ := h
      subst h1; subst h2
      exact Or.inl ⟨hc, rfl, rfl⟩
    · cases h
  · rename_i hc1
    split at h
    · rename_i hc
      split at h
      · rename_i r
        simp only [Option.some.injEq, Prod.mk.injEq] at h
        obtain ⟨h1, h2⟩ := h
        subst h1; subst h2
        exact Or.inr (Or.inl ⟨hc, rfl, rfl⟩)
      · cases h
    · rename_i hc2
      split at h
      · rename_i hc
        split at h
        · rename_i r
          simp only [Option.some.injEq, Prod.mk.injEq] at h
          obtain ⟨h1, h2⟩ := h
          subst h1; subst h2
          exact Or.inr (Or.inr (Or.inl ⟨hc, rfl, rfl⟩))
        · cases h
      · rename_i hc3
        split at h
        · rename_i hc
          split at h
          · rename_i cs r heq
            simp only [Option.some.injEq, Prod.mk.injEq] at h
            obtain ⟨h1, h2⟩ := h
            subst h1; subst h2
            exact Or.inr (Or.inr (Or.inr (Or.inl ⟨hc, cs, heq, rfl⟩)))
          · cases h
        · rename_i hc4
          split at h
          · rename_i hc
            split at h
            · rename_i r heq
              simp only [Option.some.injEq, Prod.mk.injEq] at h
              obtain ⟨h1, h2⟩ := h
              subst h1; subst h2
              exact Or.inr (Or.inr (Or.inr (Or.inr (Or.inl ⟨hc, heq, rfl⟩))))
            · rename_i r1 hx
              split at h
              · rename_i v1 r2 heq2
                exact Or.inr (Or.inr (Or.inr (Or.inr (Or.inr (Or.inl
                  ⟨hc, hx, v1, r2, heq2, h⟩)))))
              · cases h
          · rename_i hc5
            split at h
            · rename_i hc
              split at h
              · rename_i r heq
                simp only [Option.some.injEq, Prod.mk.injEq] at h
                obtain ⟨h1, h2⟩ := h
                subst h1; subst h2
                exact Or.inr (Or.inr (Or.inr (Or.inr (Or.inr (Or.inr (Or.inl ⟨hc, heq, rfl⟩))))))
              · rename_i r heq
                split at h
                · rename_i k r2 heq2
                  split at h
                  · rename_i r3 heq3
                    split at h
                    · rename_i v1 r4 heq4
                      exact Or.inr (Or.inr (Or.inr (Or.inr (Or.inr (Or.inr (Or.inr (Or.inl
                        ⟨hc, r, k, r2, r3, v1, r4, heq, heq2, heq3, heq4, h⟩)))))))
                    · cases h
                  · cases h
                · cases h
              · cases h
            · rename_i hc6
              split at h
              · rename_i hnum
                split at h
                · rename_i q r heq
                  simp only [Option.some.injEq, Prod.mk.injEq] at h
                  obtain ⟨h1, h2⟩ := h
                  subst h1; subst h2
                  exact Or.inr (Or.inr (Or.inr (Or.inr (Or.inr (Or.inr (Or.inr (Or.inr
                    ⟨hnum, q, heq, rfl⟩)))))))
                · cases h
              · cases h

theorem run_arrTail_inv {f : Nat} {acc : List Json} {l : List Char} {v : Json} {rest : List Char}
    (h : run (f + 1) (PMode.arrTail acc) l = some (v, rest)) :
    (l = ']' :: rest ∧ v = Json.arr acc) ∨
    (∃ r v1 r2, l = ',' :: r ∧ run f PMode.val (skipWs r) = some (v1, r2) ∧
      run f (PMode.arrTail (acc ++ [v1])) (skipWs r2) = some (v, rest)) := by
  simp only [run] at h
  split at h
  · rename_i r
    simp only [Option.some.injEq, Prod.mk.injEq] at h
    obtain ⟨h1, h2⟩ := h
    subst h1; subst h2
    exact Or.inl ⟨rfl, rfl⟩
  · rename_i r
    split at h
    · rename_i v1 r2 heq
      exact Or.inr ⟨r, v1, r2, rfl, heq, h⟩
    · cases h
  · cases h

theorem run_objTail_inv {f : Nat} {acc : List (String × Json)} {l : List Char} {v : Json}
    {rest : List Char}
    (h : run (f + 1) (PMode.objTail acc) l = some (v, rest)) :
    (l = '}' :: rest ∧ v = Json.obj acc) ∨
    (∃ r r2 k r3 r4 v1 r5, l = ',' :: r ∧ skipWs r = '"' :: r2 ∧
      parseStringChars r2 = some (k, r3) ∧ skipWs r3 = ':' :: r4 ∧
      run f PMode.val (skipWs r4) = some (v1, r5) ∧
      run f (PMode.objTail (setField acc k.asString v1)) (skipWs r5) = some (v, rest)) := by
  simp only [run] at h
  split at h
  · rename_i r
    simp only [Option.some.injEq, Prod.mk.injEq] at h
    obtain ⟨h1, h2⟩ := h
    subst h1; subst h2
    exact Or.inl ⟨rfl, rfl⟩
  · rename_i r
    split at h
    · rename_i r2 heq
      split at h
      · rename_i k r3 heq2
        split at h
        · rename_i r4 heq3
          split at h
          · rename_i v1 r5 heq4
            exact Or.inr ⟨r, r2, k, r3, r4, v1, r5, rfl, heq, heq2, heq3, heq4, h⟩
          · cases h
        · cases h
      · cases h
    · cases h
  · cases h

theorem numStart_ne_n {c : Char} (h : isNumStart c = true) : ¬ c = 'n' := by
  intro h2; subst h2; exact absurd h (by decide)

theorem numStart_ne_t {c : Char} (h : isNumStart c = true) : ¬ c = 't' := by
  intro h2; subst h2; exact absurd h (by decide)

theorem numStart_ne_f {c : Char} (h : isNumStart c = true) : ¬ c = 'f' := by
  intro h2; subst h2; exact absurd h (by decide)

theorem numStart_ne_q {c : Char} (h : isNumStart c = true) : ¬ c = '"' := by
  intro h2; subst h2; exact absurd h (by decide)

theorem numStart_ne_lb {c : Char} (h : isNumStart c = true) : ¬ c = '[' := by
  intro h2; subst h2; exact absurd h (by decide)

theorem numStart_ne_ob {c : Char} (h : isNumStart c = true) : ¬ c = '{' := by
  intro h2; subst h2; exact absurd h (by decide)

theorem run_val_null (f : Nat) (r : List Char) :
    run (f + 1) PMode.val ('n' :: 'u' :: 'l' :: 'l' :: r) = some (Json.null, r) := rfl

theorem run_val_true (f : Nat) (r : List Char) :
    run (f + 1) PMode.val ('t' :: 'r' :: 'u' :: 'e' :: r) = some (Json.bool true, r) := rfl

theorem run_val_false (f : Nat) (r : List Char) :
    run (f + 1) PMode.val ('f' :: 'a' :: 'l' :: 's' :: 'e' :: r) = some (Json.bool false, r) := rfl

theorem run_val_str {t cs r : List Char} (f : Nat) (h : parseStringChars t = some (cs, r)) :
    run (f + 1) PMode.val ('"' :: t) = some (Json.str cs.asString, r) := by
  simp [run, h]

theorem run_val_arr_nil {t r : List Char} (f : Nat) (h : skipWs t = ']' :: r) :
    run (f + 1) PMode.val ('[' :: t) = some (Json.arr [], r) := by
  simp [run, h]

theorem run_val_arr_cons {t r2 rest : List Char} {v1 v : Json} (f : Nat)
    (hne : ∀ x, skipWs t ≠ ']' :: x)
    (h1 : run f PMode.val (skipWs t) = some (v1, r2))
    (h2 : run f (PMode.arrTail [v1]) (skipWs r2) = some (v, rest)) :
    run (f + 1) PMode.val ('[' :: t) = some (v, rest) := by
  simp only [run]
  rw [if_neg (by decide), if_neg (by decide), if_neg (by decide), if_neg (by decide),
    if_pos trivial, h1]
  exact h2

theorem run_val_obj_nil {t r : List Char} (f : Nat) (h : skipWs t = '}' :: r) :
    run (f + 1) PMode.val ('{' :: t) = some (Json.obj [], r) := by
  simp [run, h]

theorem run_val_obj_cons {t r r2 r3 r4 rest : List Char} {k : List Char} {v1 v : Json} (f : Nat)
    (hq : skipWs t = '"' :: r)
    (hk : parseStringChars r = some (k, r2))
    (hcolon : skipWs r2 = ':' :: r3)
    (h1 : run f PMode.val (skipWs r3) = some (v1, r4))
    (h2 : run f (PMode.objTail [(k.asString, v1)]) (skipWs r4) = some (v, rest)) :
    run (f + 1) PMode.val ('{' :: t) = some (v, rest) := by
  simp only [run]
  rw [if_neg (by decide), if_neg (by decide), if_neg (by decide), if_neg (by decide),
    if_neg (by decide), if_pos trivial, hq]
  simp only [hk, hcolon, h1]
  exact h2

theorem run_val_num {c : Char} {t r : List Char} {q : ℚ} (f : Nat)
    (hstart : isNumStart c = true) (h : parseNum (c :: t) = some (q, r)) :
    run (f + 1) PMode.val (c :: t) = some (Json.num q, r) := by
  simp only [run]
  rw [if_neg (numStart_ne_n hstart), if_neg (numStart_ne_t hstart),
    if_neg (numStart_ne_f hstart), if_neg (numStart_ne_q hstart),
    if_neg (numStart_ne_lb hstart), if_neg (numStart_ne_ob hstart),
    if_pos hstart, h]

theorem run_arrTail_close (f : Nat) (acc : List Json) (rest : List Char) :
    run (f + 1) (PMode.arrTail acc) (']' :: rest) = some (Json.arr acc, rest) := rfl

theorem run_arrTail_comma {r r2 rest : List Char} {v1 v : Json} {acc : List Json} (f : Nat)
    (h1 : run f PMode.val (skipWs r) = some (v1, r2))
    (h2 : run f (PMode.arrTail (acc ++ [v1])) (skipWs r2) = some (v, rest)) :
    run (f + 1) (PMode.arrTail acc) (',' :: r) = some (v, rest) := by
  simp only [run]
  rw [h1]
  exact h2

theorem run_objTail_close (f : Nat) (acc : List (String × Json)) (rest : List Char) :
    run (f + 1) (PMode.objTail acc) ('}' :: rest) = some (Json.obj acc, rest) := rfl

theorem run_objTail_comma {r r2 r3 r4 r5 rest : List Char} {k : List Char} {v1 v : Json}
    {acc : List (String × Json)} (f : Nat)
    (hq : skipWs r = '"' :: r2)
    (hk : parseStringChars r2 = some (k, r3))
    (hcolon : skipWs r3 = ':' :: r4)
    (h1 : run f PMode.val (skipWs r4) = some (v1, r5))
    (h2 : run f (PMode.objTail (setField acc k.asString v1)) (skipWs r5) = some (v, rest)) :
    run (f + 1) (PMode.objTail acc) (',' :: r) = some (v, rest) := by
  simp only [run]
  rw [hq]
  simp only [hk, hcolon, h1]
  exact h2

theorem parseStringChars_spec {l : List Char} {cs : List Char} {rest : List Char}
    (h : parseStringChars l = some (cs, rest)) :
    ∃ sp, l = sp ++ rest ∧ sp.getLast? = some '"' ∧
      ∀ rest2, parseStringChars (sp ++ rest2) = some (cs, rest2) := by
  rw [parseStringChars, Option.map_eq_some'] at h
  obtain ⟨⟨us, r⟩, hp, heq⟩ := h
  simp only [Prod.mk.injEq] at heq
  obtain ⟨h1, h2⟩ := heq
  subst h1
  subst h2
  obtain ⟨sp, hsp, hlast, hre⟩ := parseStringCU_spec l us _ hp
  exact ⟨sp, hsp, hlast, fun rest2 => by rw [parseStringChars, hre rest2]; rfl⟩

theorem isJsWs_false_of_numStart {c : Char} (h : isNumStart c = true) : isJsWs c = false := by
  simp only [isNumStart, Bool.or_eq_true, beq_iff_eq] at h
  rcases h with h | h
  · subst h
    decide
  · exact isJsWs_false_of_digit h

theorem pre_ends (c0 : Char) (mid p : List Char) (hc0 : isJsWs c0 = false) (hp : p ≠ [])
    (hl : ∀ c, p.getLast? = some c → isJsWs c = false) :
    ((c0 :: mid) ++ p) ≠ [] ∧
    (∀ c, ((c0 :: mid) ++ p).head? = some c → isJsWs c = false) ∧
    (∀ c, ((c0 :: mid) ++ p).getLast? = some c → isJsWs c = false) := by
  refine ⟨by simp, ?_, ?_⟩
  · intro c hc
    rw [List.cons_append] at hc
    simp only [List.head?_cons, Option.some.injEq] at hc
    subst hc
    exact hc0
  · intro c hc
    rw [List.getLast?_append_of_ne_nil _ hp] at hc
    exact hl c hc

theorem run_split : ∀ (f : Nat) {m : PMode} {l : List Char} {v : Json} {rest : List Char},
    run f m l = some (v, rest) →
    ∃ pre, l = pre ++ rest ∧ pre ≠ [] ∧
      (∀ c, pre.head? = some c → isJsWs c = false) ∧
      (∀ c, pre.getLast? = some c → isJsWs c = false) := by
  intro f
  induction f with
  | zero =>
    intro m l v rest h
    simp [run] at h
  | succ f ih =>
    intro m l v rest h
    cases m with
    | val =>
      cases l with
      | nil => simp [run] at h
      | cons c t =>
        rcases run_val_inv h with ⟨hc, ht, hv⟩ | ⟨hc, ht, hv⟩ | ⟨hc, ht, hv⟩ |
          ⟨hc, cs, hps, hv⟩ | ⟨hc, hsw, hv⟩ | ⟨hc, hne, v1, r2, h1, h2⟩ |
          ⟨hc, hsw, hv⟩ | ⟨hc, r, k, r2, r3, v1, r4, hsw, hk, hcol, h1, h2⟩ |
          ⟨hnum, q, hpn, hv⟩
        · subst hc; subst ht
          exact ⟨['n', 'u', 'l', 'l'], by simp, by simp,
            by intro c2 hc2; cases hc2; decide, by intro c2 hc2; cases hc2; decide⟩
        · subst hc; subst ht
          exact ⟨['t', 'r', 'u', 'e'], by simp, by simp,
            by intro c2 hc2; cases hc2; decide, by intro c2 hc2; cases hc2; decide⟩
        · subst hc; subst ht
          exact ⟨['f', 'a', 'l', 's', 'e'], by simp, by simp,
            by intro c2 hc2; cases hc2; decide, by intro c2 hc2; cases hc2; decide⟩
        · subst hc
          obtain ⟨sp, hsp, hlast, _⟩ := parseStringChars_spec hps
          have hspne : sp ≠ [] := getLast?_some_ne_nil hlast
          obtain ⟨hne2, hh, hl2⟩ := pre_ends '"' [] sp (by decide)
            hspne (fun c2 hc2 => by rw [hlast] at hc2; cases hc2; decide)
          exact ⟨('"' :: []) ++ sp, by simp [hsp], hne2, hh, hl2⟩
        · subst hc
          obtain ⟨w, hw, _⟩ := skipWs_decomp t
          obtain ⟨hne2, hh, hl2⟩ := pre_ends '[' w [']']
            (by decide) (by simp) (fun c2 hc2 => by cases hc2; decide)
          refine ⟨('[' :: w) ++ [']'], ?_, hne2, hh, hl2⟩
          simp only [List.cons_append, List.append_assoc, List.singleton_append, List.nil_append]
          rw [← hsw, ← hw]
        · subst hc
          obtain ⟨p1, he1, hp1ne, hp1h, hp1l⟩ := ih h1
          obtain ⟨p2, he2, hp2ne, hp2h, hp2l⟩ := ih h2
          obtain ⟨w1, hw1, _⟩ := skipWs_decomp t
          obtain ⟨w2, hw2, _⟩ := skipWs_decomp r2
          obtain ⟨hne2, hh, hl2⟩ := pre_ends '[' (w1 ++ p1 ++ w2) p2
            (by decide) hp2ne hp2l
          refine ⟨('[' :: (w1 ++ p1 ++ w2)) ++ p2, ?_, hne2, hh, hl2⟩
          simp only [List.cons_append, List.append_assoc]
          rw [← he2, ← hw2, ← he1, ← hw1]
        · subst hc
          obtain ⟨w, hw, _⟩ := skipWs_decomp t
          obtain ⟨hne2, hh, hl2⟩ := pre_ends '{' w ['}']
            (by decide) (by simp) (fun c2 hc2 => by cases hc2; decide)
          refine ⟨('{' :: w) ++ ['}'], ?_, hne2, hh, hl2⟩
          simp only [List.cons_append, List.append_assoc, List.singleton_append, List.nil_append]
          rw [← hsw, ← hw]
        · subst hc
          obtain ⟨sp, hsp, hlast, _⟩ := parseStringChars_spec hk
          obtain ⟨p3, he3, hp3ne, hp3h, hp3l⟩ := ih h1
          obtain ⟨p4, he4, hp4ne, hp4h, hp4l⟩ := ih h2
          obtain ⟨w1, hw1, _⟩ := skipWs_decomp t
          obtain ⟨w2, hw2, _⟩ := skipWs_decomp r2
          obtain ⟨w3, hw3, _⟩ := skipWs_decomp r3
          obtain ⟨w4, hw4, _⟩ := skipWs_decomp r4
          obtain ⟨hne2, hh, hl2⟩ := pre_ends '{'
            (w1 ++ ('"' :: sp) ++ w2 ++ (':' :: w3) ++ p3 ++ w4) p4
            (by decide) hp4ne hp4l
          refine ⟨('{' :: (w1 ++ ('"' :: sp) ++ w2 ++ (':' :: w3) ++ p3 ++ w4)) ++ p4,
            ?_, hne2, hh, hl2⟩
          simp only [List.cons_append, List.append_assoc]
          rw [← he4, ← hw4, ← he3, ← hw3, ← hcol, ← hw2, ← hsp, ← hsw, ← hw1]
        · obtain ⟨np, hnp, hnpne, hnpall, ⟨d, hd, hdig⟩, hrh, hre⟩ := parseNum_spec hpn
          refine ⟨np, hnp, hnpne, ?_, ?_⟩
          · intro c2 hc2
            cases np with
            | nil => cases hnpne rfl
            | cons c3 t3 =>
              simp only [List.head?_cons, Option.some.injEq] at hc2
              subst hc2
              rw [List.cons_append] at hnp
              injection hnp with e1 _
              subst e1
              exact isJsWs_false_of_numStart hnum
          · intro c2 hc2
            rw [hd] at hc2
            cases hc2
            exact isJsWs_false_of_digit hdig
    | arrTail acc =>
      rcases run_arrTail_inv h with ⟨hl, hv⟩ | ⟨r, v1, r2, hl, h1, h2⟩
      · subst hl
        exact ⟨[']'], rfl, by simp, by intro c2 hc2; cases hc2; decide,
          by intro c2 hc2; cases hc2; decide⟩
      · subst hl
        obtain ⟨p1, he1, hp1ne, hp1h, hp1l⟩ := ih h1
        obtain ⟨p2, he2, hp2ne, hp2h, hp2l⟩ := ih h2
        obtain ⟨w1, hw1, _⟩ := skipWs_decomp r
        obtain ⟨w2, hw2, _⟩ := skipWs_decomp r2
        obtain ⟨hne2, hh, hl2⟩ := pre_ends ',' (w1 ++ p1 ++ w2) p2
          (by decide) hp2ne hp2l
        refine ⟨(',' :: (w1 ++ p1 ++ w2)) ++ p2, ?_, hne2, hh, hl2⟩
        simp only [List.cons_append, List.append_assoc]
        rw [← he2, ← hw2, ← he1, ← hw1]
    | objTail acc =>
      rcases run_objTail_inv h with ⟨hl, hv⟩ | ⟨r, r2, k, r3, r4, v1, r5, hl, hsw, hk, hcol, h1, h2⟩
      · subst hl
        exact ⟨['}'], rfl, by simp, by intro c2 hc2; cases hc2; decide,
          by intro c2 hc2; cases hc2; decide⟩
      · subst hl
        obtain ⟨sp, hsp, hlast, _⟩ := parseStringChars_spec hk
        obtain ⟨p3, he3, hp3ne, hp3h, hp3l⟩ := ih h1
        obtain ⟨p4, he4, hp4ne, hp4h, hp4l⟩ := ih h2
        obtain ⟨w1, hw1, _⟩ := skipWs_decomp r
        obtain ⟨w2, hw2, _⟩ := skipWs_decomp r3
        obtain ⟨w3, hw3, _⟩ := skipWs_decomp r4
        obtain ⟨w4, hw4, _⟩ := skipWs_decomp r5
        obtain ⟨hne2, hh, hl2⟩ := pre_ends ','
          (w1 ++ ('"' :: sp) ++ w2 ++ (':' :: w3) ++ p3 ++ w4) p4
          (by decide) hp4ne hp4l
        refine ⟨(',' :: (w1 ++ ('"' :: sp) ++ w2 ++ (':' :: w3) ++ p3 ++ w4)) ++ p4,
          ?_, hne2, hh, hl2⟩
        simp only [List.cons_append, List.append_assoc]
        rw [← he4, ← hw4, ← he3, ← hw3, ← hcol, ← hw2, ← hsp, ← hsw, ← hw1]

theorem len_of_append_decomp {a b c : List Char} (h : a = b ++ c) :
    a.length = b.length + c.length := by
  subst h
  exact List.length_append b c

theorem run_fuel : ∀ (f : Nat) {m : PMode} {l : List Char} {v : Json} {rest : List Char},
    run f m l = some (v, rest) →
    ∀ f2, l.length - rest.length < f2 → run f2 m l = some (v, rest) := by
  intro f
  induction f with
  | zero =>
    intro m l v rest h
    simp [run] at h
  | succ f ih =>
    intro m l v rest h f2 hf2
    obtain ⟨g, rfl⟩ : ∃ g, f2 = g + 1 := by
      cases f2 with
      | zero => omega
      | succ g => exact ⟨g, rfl⟩
    cases m with
    | val =>
      cases l with
      | nil => simp [run] at h
      | cons c t =>
        rcases run_val_inv h with ⟨hc, ht, hv⟩ | ⟨hc, ht, hv⟩ | ⟨hc, ht, hv⟩ |
          ⟨hc, cs, hps, hv⟩ | ⟨hc, hsw, hv⟩ | ⟨hc, hne, v1, r2, h1, h2⟩ |
          ⟨hc, hsw, hv⟩ | ⟨hc, r, k, r2, r3, v1, r4, hsw, hk, hcol, h1, h2⟩ |
          ⟨hnum, q, hpn, hv⟩
        · subst hc; subst ht; subst hv
          exact run_val_null g rest
        · subst hc; subst ht; subst hv
          exact run_val_true g rest
        · subst hc; subst ht; subst hv
          exact run_val_false g rest
        · subst hc; subst hv
          exact run_val_str g hps
        · subst hc; subst hv
          exact run_val_arr_nil g hsw
        · subst hc
          obtain ⟨p1, he1, hp1ne, _, _⟩ := run_split f h1
          obtain ⟨p2, he2, hp2ne, _, _⟩ := run_split f h2
          obtain ⟨w1, hw1, _⟩ := skipWs_decomp t
          obtain ⟨w2, hw2, _⟩ := skipWs_decomp r2
          have l1 := len_of_append_decomp he1
          have l2 := len_of_append_decomp he2
          have l3 := len_of_append_decomp hw1
          have l4 := len_of_append_decomp hw2
          have hp1pos : 0 < p1.length := List.length_pos.mpr hp1ne
          have hp2pos : 0 < p2.length := List.length_pos.mpr hp2ne
          simp only [List.length_cons] at hf2
          exact run_val_arr_cons g hne (ih h1 g (by omega)) (ih h2 g (by omega))
        · subst hc; subst hv
          exact run_val_obj_nil g hsw
        · subst hc
          obtain ⟨sp, hsp, hlast, _⟩ := parseStringChars_spec hk
          obtain ⟨p3, he3, hp3ne, _, _⟩ := run_split f h1
          obtain ⟨p4, he4, hp4ne, _, _⟩ := run_split f h2
          obtain ⟨w1, hw1, _⟩ := skipWs_decomp t
          obtain ⟨w2, hw2, _⟩ := skipWs_decomp r2
          obtain ⟨w3, hw3, _⟩ := skipWs_decomp r3
          obtain ⟨w4, hw4, _⟩ := skipWs_decomp r4
          have l1 := len_of_append_decomp hsp
          have l2 := len_of_append_decomp he3
          have l3 := len_of_append_decomp he4
          have l4 := len_of_append_decomp hw1
          have l5 := len_of_append_decomp hw2
          have l6 := len_of_append_decomp hw3
          have l7 := len_of_append_decomp hw4
          have l8 := congrArg List.length hsw
          have l9 := congrArg List.length hcol
          have hp3pos : 0 < p3.length := List.length_pos.mpr hp3ne
          have hp4pos : 0 < p4.length := List.length_pos.mpr hp4ne
          simp only [List.length_cons] at hf2 l8 l9
          exact run_val_obj_cons g hsw hk hcol (ih h1 g (by omega)) (ih h2 g (by omega))
        · subst hv
          exact run_val_num g hnum hpn
    | arrTail acc =>
      rcases run_arrTail_inv h with ⟨hl, hv⟩ | ⟨r, v1, r2, hl, h1, h2⟩
      · subst hl; subst hv
        exact run_arrTail_close g acc rest
      · subst hl
        obtain ⟨p1, he1, hp1ne, _, _⟩ := run_split f h1
        obtain ⟨p2, he2, hp2ne, _, _⟩ := run_split f h2
        obtain ⟨w1, hw1, _⟩ := skipWs_decomp r
        obtain ⟨w2, hw2, _⟩ := skipWs_decomp r2
        have l1 := len_of_append_decomp he1
        have l2 := len_of_append_decomp he2
        have l3 := len_of_append_decomp hw1
        have l4 := len_of_append_decomp hw2
        have hp1pos : 0 < p1.length := List.length_pos.mpr hp1ne
        have hp2pos : 0 < p2.length := List.length_pos.mpr hp2ne
        simp only [List.length_cons] at hf2
        exact run_arrTail_comma g (ih h1 g (by omega)) (ih h2 g (by omega))
    | objTail acc =>
      rcases run_objTail_inv h with ⟨hl, hv⟩ | ⟨r, r2, k, r3, r4, v1, r5, hl, hsw, hk, hcol, h1, h2⟩
      · subst hl; subst hv
        exact run_objTail_close g acc rest
      · subst hl
        obtain ⟨sp, hsp, hlast, _⟩ := parseStringChars_spec hk
        obtain ⟨p3, he3, hp3ne, _, _⟩ := run_split f h1
        obtain ⟨p4, he4, hp4ne, _, _⟩ := run_split f h2
        obtain ⟨w1, hw1, _⟩ := skipWs_decomp r
        obtain ⟨w2, hw2, _⟩ := skipWs_decomp r3
        obtain ⟨w3, hw3, _⟩ := skipWs_decomp r4
        obtain ⟨w4, hw4, _⟩ := skipWs_decomp r5
        have l1 := len_of_append_decomp hsp
        have l2 := len_of_append_decomp he3
        have l3 := len_of_append_decomp he4
        have l4 := len_of_append_decomp hw1
        have l5 := len_of_append_decomp hw2
        have l6 := len_of_append_decomp hw3
        have l7 := len_of_append_decomp hw4
        have l8 := congrArg List.length hsw
        have l9 := congrArg List.length hcol
        have hp3pos : 0 < p3.length := List.length_pos.mpr hp3ne
        have hp4pos : 0 < p4.length := List.length_pos.mpr hp4ne
        simp only [List.length_cons] at hf2 l8 l9
        exact run_objTail_comma g hsw hk hcol (ih h1 g (by omega)) (ih h2 g (by omega))

theorem run_self_suffix_absurd {f : Nat} {m : PMode} {W : List Char} {v : Json}
    {rest0 : List Char} (h : run f m W = some (v, rest0 ++ W)) : False := by
  obtain ⟨pre, he, hne, _, _⟩ := run_split f h
  have l1 := len_of_append_decomp he
  have l2 : (rest0 ++ W).length = rest0.length + W.length := List.length_append _ _
  have l3 := List.length_pos.mpr hne
  omega

theorem skipWs_all_nil {W : List Char} (hW : ∀ c ∈ W, isJsonWs c = true) : skipWs W = [] :=
  List.dropWhile_eq_nil_iff.mpr hW

theorem skipWs_block {w p rest : List Char} (hw : ∀ c ∈ w, isJsonWs c = true) (hp : p ≠ [])
    (hph : ∀ c, p.head? = some c → isJsWs c = false) :
    skipWs (w ++ (p ++ rest)) = p ++ rest := by
  rw [skipWs_append_all hw]
  obtain ⟨ph, pt, rfl⟩ : ∃ ph pt, p = ph :: pt := by
    cases p with
    | nil => cases hp rfl
    | cons a b => exact ⟨a, b, rfl⟩
  rw [List.cons_append, skipWs_cons_neg (not_jsonWs_of_not_jsWs (hph ph rfl))]

theorem run_shorten : ∀ (f : Nat) {m : PMode} {l0 W : List Char} {v : Json} {rest0 : List Char},
    (∀ c ∈ W, isJsonWs c = true) →
    run f m (l0 ++ W) = some (v, rest0 ++ W) → run f m l0 = some (v, rest0) := by
  intro f
  induction f with
  | zero =>
    intro m l0 W v rest0 hW h
    simp [run] at h
  | succ f ih =>
    intro m l0 W v rest0 hW h
    cases l0 with
    | nil =>
      rw [List.nil_append] at h
      exact (run_self_suffix_absurd h).elim
    | cons c t0 =>
      rw [List.cons_append] at h
      cases m with
      | val =>
        rcases run_val_inv h with ⟨hc, ht, hv⟩ | ⟨hc, ht, hv⟩ | ⟨hc, ht, hv⟩ |
          ⟨hc, cs, hps, hv⟩ | ⟨hc, hsw, hv⟩ | ⟨hc, hne, v1, r2, h1, h2⟩ |
          ⟨hc, hsw, hv⟩ | ⟨hc, r, k, r2, r3, v1, r4, hsw, hk, hcol, h1, h2⟩ |
          ⟨hnum, q, hpn, hv⟩
        · subst hc; subst hv
          have ht2 : t0 = 'u' :: 'l' :: 'l' :: rest0 :=
            List.append_cancel_right (ht.trans (by simp))
          subst ht2
          exact run_val_null f rest0
        · subst hc; subst hv
          have ht2 : t0 = 'r' :: 'u' :: 'e' :: rest0 :=
            List.append_cancel_right (ht.trans (by simp))
          subst ht2
          exact run_val_true f rest0
        · subst hc; subst hv
          have ht2 : t0 = 'a' :: 'l' :: 's' :: 'e' :: rest0 :=
            List.append_cancel_right (ht.trans (by simp))
          subst ht2
          exact run_val_false f rest0
        · subst hc; subst hv
          obtain ⟨sp, hsp, hlast, hre⟩ := parseStringChars_spec hps
          have ht2 : t0 = sp ++ rest0 :=
            List.append_cancel_right (hsp.trans (by simp))
          rw [ht2]
          exact run_val_str f (hre rest0)
        · subst hc; subst hv
          cases hsw0 : skipWs t0 with
          | nil =>
            rw [show skipWs (t0 ++ W) = [] from by
              rw [skipWs_append_all (skipWs_eq_nil hsw0), skipWs_all_nil hW]] at hsw
            cases hsw
          | cons x xs =>
            rw [skipWs_append_ne (by rw [hsw0]; simp), hsw0] at hsw
            rw [List.cons_append] at hsw
            injection hsw with e1 e2
            subst e1
            have e3 : xs = rest0 := List.append_cancel_right e2
            subst e3
            exact run_val_arr_nil f hsw0
        · subst hc
          cases hsw0 : skipWs t0 with
          | nil =>
            rw [show skipWs (t0 ++ W) = [] from by
              rw [skipWs_append_all (skipWs_eq_nil hsw0), skipWs_all_nil hW]] at h1
            rw [show run f PMode.val [] = none from by cases f <;> rfl] at h1
            cases h1
          | cons x xs =>
            have hswa : skipWs (t0 ++ W) = (x :: xs) ++ W := by
              rw [skipWs_append_ne (by rw [hsw0]; simp), hsw0]
            obtain ⟨p2, he2, hp2ne, hp2h, hp2l⟩ := run_split f h2
            obtain ⟨w2, hw2, hw2ws⟩ := skipWs_decomp r2
            have hr2 : r2 = (w2 ++ p2 ++ rest0) ++ W := by
              rw [hw2, he2]
              simp [List.append_assoc]
            have h1b : run f PMode.val ((x :: xs) ++ W) = some (v1, (w2 ++ p2 ++ rest0) ++ W) := by
              rw [← hswa, ← hr2]
              exact h1
            have h1c := ih hW (by rw [← hsw0] at h1b; exact h1b)
            have hskY : skipWs (w2 ++ (p2 ++ rest0)) = p2 ++ rest0 :=
              skipWs_block hw2ws hp2ne hp2h
            have h2b : run f (PMode.arrTail [v1]) ((p2 ++ rest0) ++ W) = some (v, rest0 ++ W) := by
              rw [List.append_assoc, ← he2]
              exact h2
            have h2c := ih hW h2b
            refine run_val_arr_cons f ?_ h1c ?_
            · intro y hy
              have hxy : x :: xs = ']' :: y := hsw0.symm.trans hy
              injection hxy with e1 e2
              subst e1
              exact hne (xs ++ W) (by rw [hswa]; simp)
            · rw [show skipWs (w2 ++ p2 ++ rest0) = p2 ++ rest0 from by
                rw [List.append_assoc]; exact hskY]
              exact h2c
        · subst hc; subst hv
          cases hsw0 : skipWs t0 with
          | nil =>
            rw [show skipWs (t0 ++ W) = [] from by
              rw [skipWs_append_all (skipWs_eq_nil hsw0), skipWs_all_nil hW]] at hsw
            cases hsw
          | cons x xs =>
            rw [skipWs_append_ne (by rw [hsw0]; simp), hsw0] at hsw
            rw [List.cons_append] at hsw
            injection hsw with e1 e2
            subst e1
            have e3 : xs = rest0 := List.append_cancel_right e2
            subst e3
            exact run_val_obj_nil f hsw0
        · subst hc
          cases hsw0 : skipWs t0 with
          | nil =>
            rw [show skipWs (t0 ++ W) = [] from by
              rw [skipWs_append_all (skipWs_eq_nil hsw0), skipWs_all_nil hW]] at hsw
            cases hsw
          | cons x xs =>
            rw [skipWs_append_ne (by rw [hsw0]; simp), hsw0] at hsw
            rw [List.cons_append] at hsw
            injection hsw with e1 e2
            subst e1
            obtain ⟨p4, he4, hp4ne, hp4h, _⟩ := run_split f h2
            obtain ⟨w4, hw4, hw4ws⟩ := skipWs_decomp r4
            obtain ⟨p3, he3, hp3ne, hp3h, _⟩ := run_split f h1
            obtain ⟨w3, hw3, hw3ws⟩ := skipWs_decomp r3
            obtain ⟨w2, hw2, hw2ws⟩ := skipWs_decomp r2
            obtain ⟨sp, hsp, hlast, hre⟩ := parseStringChars_spec hk
            have hr4 : r4 = (w4 ++ (p4 ++ rest0)) ++ W := by
              rw [hw4, he4]
              simp [List.append_assoc]
            have hr3 : r3 = (w3 ++ (p3 ++ (w4 ++ (p4 ++ rest0)))) ++ W := by
              rw [hw3, he3, hr4]
              simp [List.append_assoc]
            have hr2 : r2 = (w2 ++ (':' :: (w3 ++ (p3 ++ (w4 ++ (p4 ++ rest0)))))) ++ W := by
              rw [hw2, hcol, hr3]
              simp [List.append_assoc]
            have hxsW : xs ++ W = (sp ++ (w2 ++ (':' :: (w3 ++ (p3 ++ (w4 ++ (p4 ++ rest0))))))) ++ W := by
              simp [e2, hsp, hr2, List.append_assoc]
            have hxs : xs = sp ++ (w2 ++ (':' :: (w3 ++ (p3 ++ (w4 ++ (p4 ++ rest0)))))) :=
              List.append_cancel_right hxsW
            have h1b : run f PMode.val ((p3 ++ (w4 ++ (p4 ++ rest0))) ++ W) =
                some (v1, (w4 ++ (p4 ++ rest0)) ++ W) := by
              rw [List.append_assoc, ← hr4, ← he3]
              exact h1
            have h1c := ih hW h1b
            have h2b : run f (PMode.objTail [(k.asString, v1)]) ((p4 ++ rest0) ++ W) =
                some (v, rest0 ++ W) := by
              rw [List.append_assoc, ← he4]
              exact h2
            have h2c := ih hW h2b
            have hkd : parseStringChars xs =
                some (k, w2 ++ (':' :: (w3 ++ (p3 ++ (w4 ++ (p4 ++ rest0)))))) := by
              rw [hxs]
              exact hre _
            have hcold : skipWs (w2 ++ (':' :: (w3 ++ (p3 ++ (w4 ++ (p4 ++ rest0)))))) =
                ':' :: (w3 ++ (p3 ++ (w4 ++ (p4 ++ rest0)))) := by
              rw [skipWs_append_all hw2ws, skipWs_cons_neg (by decide)]
            have h1d : run f PMode.val (skipWs (w3 ++ (p3 ++ (w4 ++ (p4 ++ rest0))))) =
                some (v1, w4 ++ (p4 ++ rest0)) := by
              rw [skipWs_block hw3ws hp3ne hp3h]
              exact h1c
            have h2d : run f (PMode.objTail [(k.asString, v1)]) (skipWs (w4 ++ (p4 ++ rest0))) =
                some (v, rest0) := by
              rw [skipWs_block hw4ws hp4ne hp4h]
              exact h2c
            exact run_val_obj_cons f hsw0 hkd hcold h1d h2d
        · subst hv
          obtain ⟨np, hnp, hnpne, hnpall, hnpd, hrh, hre⟩ := parseNum_spec hpn
          have hctW : (c :: t0) ++ W = (np ++ rest0) ++ W := by
            simp [hnp, List.append_assoc]
          have hct : c :: t0 = np ++ rest0 := List.append_cancel_right hctW
          have hre2 : parseNum (np ++ rest0) = some (q, rest0) := by
            refine hre rest0 ?_
            intro c2 hc2
            refine hrh c2 ?_
            cases rest0 with
            | nil => cases hc2
            | cons rh rt =>
              simp only [List.head?_cons, Option.some.injEq] at hc2
              subst hc2
              rfl
          exact run_val_num f hnum (by rw [hct]; exact hre2)
      | arrTail acc =>
        rcases run_arrTail_inv h with ⟨hl, hv⟩ | ⟨r, v1, r2, hl, h1, h2⟩
        · subst hv
          injection hl with e1 e2
          subst e1
          have e3 : t0 = rest0 := List.append_cancel_right e2
          subst e3
          exact run_arrTail_close f acc t0
        · injection hl with e1 e2
          subst e1
          subst e2
          cases hsw0 : skipWs t0 with
          | nil =>
            rw [show skipWs (t0 ++ W) = [] from by
              rw [skipWs_append_all (skipWs_eq_nil hsw0), skipWs_all_nil hW]] at h1
            rw [show run f PMode.val [] = none from by cases f <;> rfl] at h1
            cases h1
          | cons x xs =>
            have hswa : skipWs (t0 ++ W) = (x :: xs) ++ W := by
              rw [skipWs_append_ne (by rw [hsw0]; simp), hsw0]
            obtain ⟨p2, he2, hp2ne, hp2h, hp2l⟩ := run_split f h2
            obtain ⟨w2, hw2, hw2ws⟩ := skipWs_decomp r2
            have hr2 : r2 = (w2 ++ p2 ++ rest0) ++ W := by
              rw [hw2, he2]
              simp [List.append_assoc]
            have h1b : run f PMode.val ((x :: xs) ++ W) = some (v1, (w2 ++ p2 ++ rest0) ++ W) := by
              rw [← hswa, ← hr2]
              exact h1
            have h1c := ih hW (by rw [← hsw0] at h1b; exact h1b)
            have hskY : skipWs (w2 ++ (p2 ++ rest0)) = p2 ++ rest0 :=
              skipWs_block hw2ws hp2ne hp2h
            have h2b : run f (PMode.arrTail (acc ++ [v1])) ((p2 ++ rest0) ++ W) =
                some (v, rest0 ++ W) := by
              rw [List.append_assoc, ← he2]
              exact h2
            have h2c := ih hW h2b
            refine run_arrTail_comma f h1c ?_
            rw [show skipWs (w2 ++ p2 ++ rest0) = p2 ++ rest0 from by
              rw [List.append_assoc]; exact hskY]
            exact h2c
      | objTail acc =>
        rcases run_objTail_inv h with ⟨hl, hv⟩ | ⟨r, r2, k, r3, r4, v1, r5, hl, hsw, hk, hcol, h1, h2⟩
        · subst hv
          injection hl with e1 e2
          subst e1
          have e3 : t0 = rest0 := List.append_cancel_right e2
          subst e3
          exact run_objTail_close f acc t0
        · injection hl with e1 e2
          subst e1
          subst e2
          cases hsw0 : skipWs t0 with
          | nil =>
            rw [show skipWs (t0 ++ W) = [] from by
              rw [skipWs_append_all (skipWs_eq_nil hsw0), skipWs_all_nil hW]] at hsw
            cases hsw
          | cons x xs =>
            rw [skipWs_append_ne (by rw [hsw0]; simp), hsw0] at hsw
            rw [List.cons_append] at hsw
            injection hsw with e1 e2
            subst e1
            obtain ⟨p4, he4, hp4ne, hp4h, _⟩ := run_split f h2
            obtain ⟨w4, hw4, hw4ws⟩ := skipWs_decomp r5
            obtain ⟨p3, he3, hp3ne, hp3h, _⟩ := run_split f h1
            obtain ⟨w3, hw3, hw3ws⟩ := skipWs_decomp r4
            obtain ⟨w2, hw2, hw2ws⟩ := skipWs_decomp r3
            obtain ⟨sp, hsp, hlast, hre⟩ := parseStringChars_spec hk
            have hr5 : r5 = (w4 ++ (p4 ++ rest0)) ++ W := by
              rw [hw4, he4]
              simp [List.append_assoc]
            have hr4 : r4 = (w3 ++ (p3 ++ (w4 ++ (p4 ++ rest0)))) ++ W := by
              rw [hw3, he3, hr5]
              simp [List.append_assoc]
            have hr3 : r3 = (w2 ++ (':' :: (w3 ++ (p3 ++ (w4 ++ (p4 ++ rest0)))))) ++ W := by
              rw [hw2, hcol, hr4]
              simp [List.append_assoc]
            have hxsW2 : xs ++ W = (sp ++ (w2 ++ (':' :: (w3 ++ (p3 ++ (w4 ++ (p4 ++ rest0))))))) ++ W := by
              simp [e2, hsp, hr3, List.append_assoc]
            have hxs : xs = sp ++ (w2 ++ (':' :: (w3 ++ (p3 ++ (w4 ++ (p4 ++ rest0)))))) :=
              List.append_cancel_right hxsW2
            have h1b : run f PMode.val ((p3 ++ (w4 ++ (p4 ++ rest0))) ++ W) =
                some (v1, (w4 ++ (p4 ++ rest0)) ++ W) := by
              rw [List.append_assoc, ← hr5, ← he3]
              exact h1
            have h1c := ih hW h1b
            have h2b : run f (PMode.objTail (setField acc k.asString v1)) ((p4 ++ rest0) ++ W) =
                some (v, rest0 ++ W) := by
              rw [List.append_assoc, ← he4]
              exact h2
            have h2c := ih hW h2b
            have hkd2 : parseStringChars xs =
                some (k, w2 ++ (':' :: (w3 ++ (p3 ++ (w4 ++ (p4 ++ rest0)))))) := by
              rw [hxs]
              exact hre _
            have hcold2 : skipWs (w2 ++ (':' :: (w3 ++ (p3 ++ (w4 ++ (p4 ++ rest0)))))) =
                ':' :: (w3 ++ (p3 ++ (w4 ++ (p4 ++ rest0)))) := by
              rw [skipWs_append_all hw2ws, skipWs_cons_neg (by decide)]
            have h1d2 : run f PMode.val (skipWs (w3 ++ (p3 ++ (w4 ++ (p4 ++ rest0))))) =
                some (v1, w4 ++ (p4 ++ rest0)) := by
              rw [skipWs_block hw3ws hp3ne hp3h]
              exact h1c
            have h2d2 : run f (PMode.objTail (setField acc k.asString v1))
                (skipWs (w4 ++ (p4 ++ rest0))) = some (v, rest0) := by
              rw [skipWs_block hw4ws hp4ne hp4h]
              exact h2c
            exact run_objTail_comma f hsw0 hkd2 hcold2 h1d2 h2d2

theorem run_val_backtick (f : Nat) (t : List Char) : run f PMode.val ('`' :: t) = none := by
  cases f with
  | zero => rfl
  | succ g =>
    simp only [run]
    rw [if_neg (by decide), if_neg (by decide), if_neg (by decide), if_neg (by decide),
      if_neg (by decide), if_neg (by decide), if_neg (by decide)]

theorem data_asString (l : List Char) : (l.asString).data = l := rfl

theorem parseJSONL_jsTrim {l : List Char} {v : Json}
    (h : parseJSONL l = some v) : parseJSONL (jsTrim l) = some v := by
  unfold parseJSONL at h
  rcases hr : run (l.length + 1) PMode.val (skipWs l) with _ | ⟨v2, rest⟩
  · rw [hr] at h
    cases h
  · rw [hr] at h
    dsimp only at h
    split at h
    · rename_i hrest
      injection h with hv
      subst hv
      obtain ⟨pre, hpre, hpne, hph, hpl⟩ := run_split _ hr
      obtain ⟨wsA, hwsA, hwsAall⟩ := skipWs_decomp l
      have hrestall : ∀ c ∈ rest, isJsonWs c = true := skipWs_eq_nil hrest
      have htrim : jsTrim l = pre := by
        refine jsTrim_decomp ?_ hwsAall hrestall hph hpl hpne
        rw [List.append_assoc, ← hpre, ← hwsA]
      have hshort : run (l.length + 1) PMode.val pre = some (v2, []) := by
        refine run_shorten _ hrestall ?_
        rw [← hpre, List.nil_append]
        exact hr
      have hfuel : run (pre.length + 1) PMode.val pre = some (v2, []) :=
        run_fuel _ hshort _ (by simp)
      have hskpre : skipWs pre = pre := by
        cases hp : pre with
        | nil => rfl
        | cons c t =>
          refine skipWs_cons_neg (not_jsonWs_of_not_jsWs (hph c ?_))
          rw [hp]
          rfl
      unfold parseJSONL
      rw [htrim, hskpre, hfuel]
      rfl
    · cases h

theorem parseJSON_wrapFence_none (s : String) : parseJSON (wrapFence s) = none := by
  show parseJSONL (wrapFence s).data = none
  have hd : (wrapFence s).data =
      '`' :: '`' :: '`' :: 'j' :: 's' :: 'o' :: 'n' :: '\n' ::
        (s.data ++ ('\n' :: '`' :: '`' :: '`' :: [])) := by
    show ("```json\n" ++ s ++ "\n```").data = _
    rw [String.data_append, String.data_append]
    rfl
  rw [hd]
  unfold parseJSONL
  rw [skipWs_cons_neg (by decide), run_val_backtick]

theorem sanitizeJSON_wrapFence {s : String} {v : Json}
    (hnf : hasFence s.data = false) (h : parseJSON s = some v) :
    sanitizeJSON (wrapFence s) = some v := by
  unfold sanitizeJSON
  rw [parseJSON_wrapFence_none]
  have hd : (wrapFence s).data =
      '`' :: '`' :: '`' :: 'j' :: 's' :: 'o' :: 'n' ::
        ('\n' :: (s.data ++ ('\n' :: '`' :: '`' :: '`' :: []))) := by
    show ("```json\n" ++ s ++ "\n```").data = _
    rw [String.data_append, String.data_append]
    rfl
  have hstrip : stripFences (wrapFence s).data = '\n' :: (s.data ++ ['\n']) := by
    have hsf : startsFence ('\n' :: (s.data ++ ('\n' :: '`' :: '`' :: '`' :: []))) = false := by
      rw [startsFence_false_iff]
      intro t heq
      injection heq with e1 e2
      exact absurd e1 (by decide)
    rw [hd, stripFences_fencejson, stripFences_cons_safe hsf,
      stripFences_append_closer hnf]
  show parseJSONL (jsTrim (stripFences (wrapFence s).data)) = some v
  rw [hstrip]
  rw [show ('\n' :: (s.data ++ ['\n'])) = '\n' :: (s.data ++ ['\n']) from rfl]
  rw [jsTrim_wrap]
  exact parseJSONL_jsTrim h

/-! ## Helper values and lemmas for the claim theorems -/

/-- A brief whose creativity is missing or non-finite (`none`). -/
def noCreativityRequest : AgentRequest := { sampleRequest with creativity := none }

/-- A brief with runtime far above the allowed range. -/
def overlongRequest : AgentRequest := { sampleRequest with runtimeSeconds := 200 }

/-- An environment with the credential variable unset. -/
def emptyEnv : EnvConfig := { apiKey := none, model := none }

/-- A failed provider reply carrying a raw upstream error body. -/
def failedReply : ProviderReply :=
  { ok := false, errorText := "upstream 500: internal stack trace", content := none }

/-- A successful reply whose completion text is not JSON. -/
def garbledReply : ProviderReply := { ok := true, errorText := "", content := some "hello" }

/-- A successful reply whose completion is valid JSON in fence markers. -/
def fencedReply : ProviderReply :=
  { ok := true, errorText := "", content := some (wrapFence "\x7b\"ok\":true\x7d") }

/-- A successful reply whose completion is the empty string (present). -/
def emptyContentReply : ProviderReply := { ok := true, errorText := "", content := some "" }

/-- A successful reply with the content field absent. -/
def noContentReply : ProviderReply := { ok := true, errorText := "", content := none }

/-- A JSON payload that itself contains a triple-backtick substring. -/
def fencePayload : String := "\x7b\"a\":\"```\"\x7d"

/-- The parse of `cannedContent`, written out. -/
def cannedJson : Json :=
  Json.obj [("headline", Json.str "Creative output unavailable"), ("hook", Json.str ""),
    ("storyline", Json.arr []), ("script", Json.str ""), ("educationalMoments", Json.arr []),
    ("callToAction", Json.str ""), ("safetyChecklist", Json.arr []),
    ("metadata", Json.obj [("description", Json.str ""), ("hashtags", Json.arr []),
      ("keywords", Json.arr []), ("publishingTip", Json.str "")]),
    ("thumbnailConcepts", Json.arr []), ("repurposingIdeas", Json.arr [])]

set_option maxRecDepth 40000 in
theorem cannedContent_parses : parseJSON cannedContent = some cannedJson := rfl

theorem min_max_eq_clamp (x : ℚ) : min 0.95 (max 0.2 x) = clamp 0.2 0.95 x := by
  unfold clamp
  rcases lt_or_le x 0.2 with h | h
  · rw [if_pos h, max_eq_left h.le, min_eq_right (by norm_num)]
  · rw [if_neg (not_lt.mpr h), max_eq_right h]
    rcases lt_or_le 0.95 x with h2 | h2
    · rw [if_pos h2, min_eq_left h2.le]
    · rw [if_neg (not_lt.mpr h2), min_eq_right h2]

theorem POST_calls (env : EnvConfig) (p : AgentRequest) (reply : ProviderReply) :
    (POST env p reply).2 = [] ∨ (POST env p reply).2 = [mkProviderRequest env p] := by
  unfold POST
  split
  · left
    rfl
  · split
    · right
      rfl
    · split
      · right
        rfl
      · right
        rfl

/-! ## The claims -/

/-- C1: the temperature passed to the provider.  As stated the claim is
false: a missing or non-finite creativity yields temperature 0.6, not
0.8 (the code's ternary substitutes the base 0.6 without adding 0.2),
and a finite creativity outside [0, 1] is still clamped through
`clamp(creativity + 0.2, 0.2, 0.95)` rather than pinned to 0.8.  The
amended property: every provider request carries temperature
`clamp(creativity + 0.2, 0.2, 0.95)` for finite creativity and 0.6
otherwise. -/
theorem temperature_from_creativity (env : EnvConfig) (p : AgentRequest)
    (reply : ProviderReply) (r : ProviderRequest) (hr : r ∈ (POST env p reply).2) :
    r.temperature =
      match p.creativity with
      | some q => clamp 0.2 0.95 (q + 0.2)
      | none => 0.6 := by
  rcases POST_calls env p reply with h | h
  · rw [h] at hr
    cases hr
  · rw [h] at hr
    rcases List.mem_singleton.mp hr with rfl
    show deriveTemperature p.creativity = _
    unfold deriveTemperature
    cases p.creativity with
    | none =>
      rw [max_eq_right (by norm_num), min_eq_right (by norm_num)]
    | some q =>
      exact min_max_eq_clamp _

/-- Witness for C1 at a concrete brief, environment and reply. -/
theorem temperature_from_creativity_witness :
    (mkProviderRequest sampleEnv noCreativityRequest).temperature = 0.6 :=
  temperature_from_creativity sampleEnv noCreativityRequest failedReply
    (mkProviderRequest sampleEnv noCreativityRequest)
    (by rw [show (POST sampleEnv noCreativityRequest failedReply).2 =
          [mkProviderRequest sampleEnv noCreativityRequest] from rfl]
        exact List.mem_singleton.mpr rfl)

/-- Counterexample to C1 as stated: non-finite creativity derives
temperature 0.6, and finite creativity 1.5 (outside [0, 1]) derives
0.95; neither is the claimed 0.8. -/
theorem temperature_fallback_counterexample :
    deriveTemperature none = 0.6 ∧ (0.6 : ℚ) ≠ 0.8 ∧
    deriveTemperature (some 1.5) = 0.95 ∧ (0.95 : ℚ) ≠ 0.8 := by
  refine ⟨?_, by norm_num, ?_, by norm_num⟩
  · unfold deriveTemperature
    rw [max_eq_right (by norm_num), min_eq_right (by norm_num)]
  · show min 0.95 (max 0.2 ((1.5 : ℚ) + 0.2)) = 0.95
    rw [show (1.5 : ℚ) + 0.2 = 1.7 from by norm_num,
      max_eq_right (by norm_num), min_eq_left (by norm_num)]

/-- C2: with the credential variable absent the handler answers 500 with
the fixed message and issues no provider call. -/
theorem missing_key_short_circuit (env : EnvConfig) (p : AgentRequest)
    (reply : ProviderReply) (h : env.apiKey = none) :
    POST env p reply = ({ status := 500, body := errorBody missingKeyMessage }, []) := by
  unfold POST
  rw [h]
  rfl

/-- Witness for C2 at a concrete brief and reply. -/
theorem missing_key_short_circuit_witness :
    POST emptyEnv sampleRequest failedReply =
      ({ status := 500, body := errorBody missingKeyMessage }, []) :=
  missing_key_short_circuit emptyEnv sampleRequest failedReply rfl

/-- C3: fence-stripping round-trips fenced payloads.  As stated the
claim is false: the sanitizer's global replace also deletes
triple-backtick runs inside the payload, so a valid JSON payload that
contains one is mangled (see the counterexample).  The amended
property: for every payload with no triple-backtick substring of its
own, a completion wrapping it in code fences is stripped and parsed, and
the handler returns the parsed object with status 200. -/
theorem fenced_payload_roundtrip (env : EnvConfig) (p : AgentRequest)
    (reply : ProviderReply) (s : String) (v : Json)
    (henv : jsFalsyKey env.apiKey = false) (hok : reply.ok = true)
    (hcontent : reply.content = some (wrapFence s))
    (hnf : hasFence s.data = false) (hparse : parseJSON s = some v) :
    (POST env p reply).1 = { status := 200, body := v } := by
  unfold POST
  rw [henv, hok, hcontent]
  rw [if_neg (by simp), if_neg (by simp)]
  rw [show (some (wrapFence s)).getD cannedContent = wrapFence s from rfl]
  rw [sanitizeJSON_wrapFence hnf hparse]

/-- Witness for C3 at a concrete fenced completion. -/
theorem fenced_payload_roundtrip_witness :
    (POST sampleEnv sampleRequest fencedReply).1 =
      { status := 200, body := Json.obj [("ok", Json.bool true)] } :=
  fenced_payload_roundtrip sampleEnv sampleRequest fencedReply "\x7b\"ok\":true\x7d"
    (Json.obj [("ok", Json.bool true)]) rfl rfl rfl (by decide) rfl

/-- Counterexample to C3 as stated: a valid JSON payload containing a
triple-backtick substring parses to one value on its own, but the
sanitizer returns a different value for its fenced wrapping — the
round-trip fails. -/
theorem fenced_payload_mangled :
    parseJSON fencePayload = some (Json.obj [("a", Json.str "```")]) ∧
    sanitizeJSON (wrapFence fencePayload) = some (Json.obj [("a", Json.str "")]) ∧
    Json.obj [("a", Json.str "")] ≠ Json.obj [("a", Json.str "```")] := by
  refine ⟨rfl, rfl, ?_⟩
  intro h
  injection h with h1
  injection h1 with h2 h3
  injection h2 with h4 h5
  injection h5 with h6
  exact absurd h6 (by decide)

/-- C4: a completion that fails parsing both directly and after the
fence-stripping pass yields status 500 with the fixed formatting
message. -/
theorem formatting_failure_500 (env : EnvConfig) (p : AgentRequest)
    (reply : ProviderReply) (c : String)
    (henv : jsFalsyKey env.apiKey = false) (hok : reply.ok = true)
    (hc : reply.content = some c)
    (h1 : parseJSON c = none)
    (h2 : parseJSON (jsTrimStr (stripFencesStr c)) = none) :
    (POST env p reply).1 = { status := 500, body := errorBody formattingErrorMessage } := by
  unfold POST
  rw [henv, hok, hc]
  rw [if_neg (by simp), if_neg (by simp)]
  rw [show (some c).getD cannedContent = c from rfl]
  rw [show sanitizeJSON c = none from by unfold sanitizeJSON; rw [h1]; exact h2]

/-- Witness for C4 on the completion text "hello". -/
theorem formatting_failure_500_witness :
    (POST sampleEnv sampleRequest garbledReply).1 =
      { status := 500, body := errorBody formattingErrorMessage } :=
  formatting_failure_500 sampleEnv sampleRequest garbledReply "hello" rfl rfl rfl rfl rfl

/-- C5: a runtime outside [15, 90] is clamped into the range both in the
prompt's runtime line and in the client display. -/
theorem runtime_clamped (p : AgentRequest)
    (h : p.runtimeSeconds < 15 ∨ 90 < p.runtimeSeconds) :
    ∃ r : Int, 15 ≤ r ∧ r ≤ 90 ∧
      ("Ideal runtime: " ++ toString r ++ " seconds") ∈ userPromptLines p ∧
      formatSeconds p.runtimeSeconds = toString r ++ "s" := by
  refine ⟨max 15 (min 90 p.runtimeSeconds), le_max_left _ _,
    max_le (by norm_num) (min_le_left _ _), ?_, rfl⟩
  unfold userPromptLines
  simp

/-- Witness for C5 at runtime 200. -/
theorem runtime_clamped_witness :
    ∃ r : Int, 15 ≤ r ∧ r ≤ 90 ∧
      ("Ideal runtime: " ++ toString r ++ " seconds") ∈ userPromptLines overlongRequest ∧
      formatSeconds overlongRequest.runtimeSeconds = toString r ++ "s" :=
  runtime_clamped overlongRequest (Or.inr (by decide))

/-- C6: the quick preview is exactly the first three scenes of the
storyline in order, and empty when the storyline is empty or there is no
result. -/
theorem scene_preview_first_three (result : Option AgentResponse) :
    (∀ r, result = some r →
      (scenePreview result).length = min 3 r.storyline.length ∧
      (∀ i : Nat, i < 3 → (scenePreview result)[i]? = r.storyline[i]?) ∧
      (r.storyline = [] → scenePreview result = [])) ∧
    (result = none → scenePreview result = []) := by
  constructor
  · intro r hr
    subst hr
    refine ⟨List.length_take 3 _, fun i hi => List.getElem?_take_of_lt hi, fun he => ?_⟩
    show r.storyline.take 3 = []
    rw [he]
    rfl
  · intro h
    subst h
    rfl

/-- C7: the reset action clears the plan and the message and restores
the defaults.  As stated the claim is false in one detail: the cadence
default in the code is "3 videos / week" (spaces around the slash), not
"3 videos/week".  The amended property restores that string. -/
theorem reset_restores_defaults (st : ClientState) :
    (handleReset st).result = none ∧
    (handleReset st).errorMessage = none ∧
    (handleReset st).formState = defaultForm ∧
    defaultForm.targetAge = "Ages 5-8" ∧
    defaultForm.tone = "Playful & Silly" ∧
    defaultForm.runtimeSeconds = 45 ∧
    defaultForm.cadence = "3 videos / week" ∧
    defaultForm.creativity = 0.6 :=
  ⟨rfl, rfl, rfl, rfl, rfl, rfl, rfl, rfl⟩

/-- Counterexample to C7 as stated: the cadence the reset restores is
not the claimed "3 videos/week". -/
theorem reset_cadence_counterexample :
    (handleReset sampleState).formState.cadence ≠ "3 videos/week" ∧
    (handleReset sampleState).formState.cadence = "3 videos / week" := by
  refine ⟨?_, rfl⟩
  decide

/-- C8: a failed provider call is answered with status 502 and the fixed
retry message; the response is the same constant for every raw provider
error body, so nothing of it is leaked. -/
theorem provider_error_masked (env : EnvConfig) (p : AgentRequest)
    (reply : ProviderReply)
    (henv : jsFalsyKey env.apiKey = false) (hfail : reply.ok = false) :
    (POST env p reply).1 = { status := 502, body := errorBody providerErrorMessage } := by
  unfold POST
  rw [henv, hfail]
  rw [if_neg (by simp), if_pos rfl]

/-- Witness for C8 at a reply carrying a raw upstream error body. -/
theorem provider_error_masked_witness :
    (POST sampleEnv sampleRequest failedReply).1 =
      { status := 502, body := errorBody providerErrorMessage } :=
  provider_error_masked sampleEnv sampleRequest failedReply rfl rfl

/-- C9: the prompt interpolates fields with fallback substitution on the
empty optional fields.  As stated the claim is false: the channel name
also receives fallback text ("Not provided") when empty, so it is not
interpolated verbatim.  The amended property: `buildUserPrompt` equals
verbatim interpolation after fallback substitution on exactly four
fields — learning outcome, hero character, extra notes, and channel
name. -/
theorem prompt_fallback_refinement (p : AgentRequest) :
    buildUserPrompt p = String.intercalate "\n" (verbatimPromptLines (substFallbacksActual p)) :=
  rfl

/-- Counterexample to C9 as stated: with an empty channel name the
prompt differs from verbatim interpolation after substitution on only
the three claimed fields, and matches substitution on four. -/
theorem prompt_fallback_counterexample :
    buildUserPrompt { sampleRequest with channelName := "" } ≠
      String.intercalate "\n"
        (verbatimPromptLines (substFallbacksClaimed { sampleRequest with channelName := "" })) ∧
    buildUserPrompt { sampleRequest with channelName := "" } =
      String.intercalate "\n"
        (verbatimPromptLines (substFallbacksActual { sampleRequest with channelName := "" })) := by
  refine ⟨?_, rfl⟩
  decide

/-- C10: an empty-string completion is not replaced by the canned
fallback (it is present, so `??` keeps it) and fails both parse
attempts, giving status 500 with the formatting message; the canned
fallback applies to absent content, which parses and returns 200. -/
theorem empty_content_not_canned (env : EnvConfig) (p : AgentRequest)
    (r1 r2 : ProviderReply)
    (henv : jsFalsyKey env.apiKey = false)
    (h1ok : r1.ok = true) (h1c : r1.content = some "")
    (h2ok : r2.ok = true) (h2c : r2.content = none) :
    (POST env p r1).1 = { status := 500, body := errorBody formattingErrorMessage } ∧
    (POST env p r2).1 = { status := 200, body := cannedJson } := by
  constructor
  · unfold POST
    rw [henv, h1ok, h1c]
    rw [if_neg (by simp), if_neg (by simp)]
    rw [show (some "").getD cannedContent = "" from rfl]
    rw [show sanitizeJSON "" = none from rfl]
  · unfold POST
    rw [henv, h2ok, h2c]
    rw [if_neg (by simp), if_neg (by simp)]
    rw [show (none : Option String).getD cannedContent = cannedContent from rfl]
    rw [show sanitizeJSON cannedContent = some cannedJson from by
      unfold sanitizeJSON
      rw [cannedContent_parses]]

/-- Witness for C10 at concrete empty-string and absent-content replies. -/
theorem empty_content_not_canned_witness :
    (POST sampleEnv sampleRequest emptyContentReply).1 =
      { status := 500, body := errorBody formattingErrorMessage } ∧
    (POST sampleEnv sampleRequest noContentReply).1 =
      { status := 200, body := cannedJson } :=
  empty_content_not_canned sampleEnv sampleRequest emptyContentReply noContentReply
    rfl rfl rfl rfl rfl

end AYK
